import Mathlib

/-!
Block addressing, truncation and symlink resolution (kernel/fs.c, kernel/sysfile.c).

A shallow embedding of `bmap`, `itrunc`, `sys_symlink`, `sys_unlink` and the
symlink-following part of `sys_open`, together with theorems about them.

Conventions of the embedding.

* Block numbers and table entries are `uint` in the source; they are `Nat`
  here.  Every subtraction in `bmap` is guarded by the comparison right
  before it, so it never wraps and truncated subtraction on `Nat` agrees
  with the C arithmetic.
* `BSIZE` (kernel/param.h) is not part of the sources at hand, so the block
  size is a parameter of every definition that depends on it.
* The buffer cache keeps one buffer per block, so `bread`/`a[i]`/`brelse`
  on block `b` is a read or a write of word `i` of block `b`.
* `log_write`, `iupdate`, `ilock`, `begin_op`, `end_op` do not change the
  values the theorems speak about and are left out.
-/

namespace Fs

/-! ## Constants (kernel/fs.h) -/

/-- Number of direct slots: `#define NDIRECT 11`. -/
def NDIRECT : Nat := 11

/-- Entries of a pointer block: `#define NINDIRECT (BSIZE / sizeof(uint))`. -/
def NINDIRECT (BSIZE : Nat) : Nat := BSIZE / 4

/-- Blocks behind the double-indirect slot: `#define NDINDIRECT (NINDIRECT * NINDIRECT)`. -/
def NDINDIRECT (BSIZE : Nat) : Nat := NINDIRECT BSIZE * NINDIRECT BSIZE

/-- Largest file in blocks: `#define MAXFILE (NDIRECT + NINDIRECT + NDINDIRECT)`. -/
def MAXFILE (BSIZE : Nat) : Nat := NDIRECT + NINDIRECT BSIZE + NDINDIRECT BSIZE

/-! ## State -/

/-- The part of the machine `bmap` and `itrunc` act on: the in-memory inode
(`addrs`, `size`), the disk seen through the buffer cache (`disk b i` is word
`i` of block `b`), the block numbers the allocator is going to hand out
(`free 0` first), and the trace of the calls to `bfree`. -/
structure FS where
  addrs : Nat → Nat
  size : Nat
  disk : Nat → Nat → Nat
  free : Nat → Nat
  freed : List Nat

/-- Modelled from the spec: `balloc` (kernel/fs.c, not among the sources at
hand) is the allocator, "allocateBlock(device) -> blockNumber (zero-filled)".
It returns the next block number of the allocator and zero-fills that block. -/
def balloc (s : FS) : Nat × FS :=
  (s.free 0,
   { s with
     disk := fun b => if b = s.free 0 then fun _ => 0 else s.disk b
     free := fun k => s.free (k + 1) })

/-- Modelled from the spec: `bfree` (kernel/fs.c, not among the sources at
hand), "freeBlock(device, blockNumber)".  The call is recorded in the trace. -/
def bfree (s : FS) (b : Nat) : FS :=
  { s with freed := s.freed ++ [b] }

/-- The assignment `ip->addrs[i] = v`. -/
def setAddr (s : FS) (i v : Nat) : FS :=
  { s with addrs := fun j => if j = i then v else s.addrs j }

/-- The assignment `a[i] = v` where `a` is the data of the buffer of block `blk`. -/
def setWord (s : FS) (blk i v : Nat) : FS :=
  { s with disk := fun b => if b = blk then fun j => if j = i then v else s.disk b j else s.disk b }

/-! ## bmap -/

/-- The statement `if ((addr = ip->addrs[i]) == 0) ip->addrs[i] = addr = balloc(ip->dev);`
giving the value of `addr` and the new state. -/
def addrOrAlloc (s : FS) (i : Nat) : Nat × FS :=
  if s.addrs i = 0 then
    ((balloc s).1, setAddr (balloc s).2 i (balloc s).1)
  else
    (s.addrs i, s)

/-- The statement `if ((addr = a[i]) == 0) { a[i] = addr = balloc(ip->dev); log_write(bp); }`
on the buffer of block `blk`, giving the value of `addr` and the new state. -/
def wordOrAlloc (s : FS) (blk i : Nat) : Nat × FS :=
  if s.disk blk i = 0 then
    ((balloc s).1, setWord (balloc s).2 blk i (balloc s).1)
  else
    (s.disk blk i, s)

/-- The first `n` rounds `i = 0, .., n-1` of the loop
`for (int i = 0; i <= index; i++) { if ((addr = a[i]) == 0) { .. } }`
on the buffer of block `blk`; the pair is (`addr`, state). -/
def fillFirstLevel (blk : Nat) : Nat → Nat × FS → Nat × FS
  | 0, p => p
  | n + 1, p => wordOrAlloc (fillFirstLevel blk n p).2 blk n

/-- The double-indirect descent from the pointer block `D`: the first-level
loop up to `L1`, then the leaf at `L2` of the second-level block. -/
def descend (D L1 L2 : Nat) (s : FS) : Nat × FS :=
  wordOrAlloc (fillFirstLevel D (L1 + 1) (D, s)).2 (fillFirstLevel D (L1 + 1) (D, s)).1 L2

/-- The function `bmap(ip, bn)`.  The first component is the returned block
number, `none` when no branch is taken and control falls through to the
fatal path after the three tiers. -/
def bmap (BSIZE : Nat) (s : FS) (bn : Nat) : Option Nat × FS :=
  if bn < NDIRECT then
    let r := addrOrAlloc s bn
    (some r.1, r.2)
  else
    let bn1 := bn - NDIRECT
    if bn1 < NINDIRECT BSIZE then
      let r1 := addrOrAlloc s NDIRECT
      let r2 := wordOrAlloc r1.2 r1.1 bn1
      (some r2.1, r2.2)
    else
      let bn2 := bn1 - NINDIRECT BSIZE
      if bn2 < NDINDIRECT BSIZE then
        let r1 := addrOrAlloc s (NDIRECT + 1)
        let index := bn2 / NINDIRECT BSIZE
        let r2 := fillFirstLevel r1.1 (index + 1) r1
        let bn3 := bn2 - NINDIRECT BSIZE * index
        let r3 := wordOrAlloc r2.2 r2.1 bn3
        (some r3.1, r3.2)
      else
        (none, s)

/-! ## itrunc -/

/-- Modelled from the spec: the body of the direct loop is cut out of the
sources at hand after its `bfree` call; the spec has "for each non-zero direct
entry, free the block and zero the entry".  These are the first `n` rounds of
`for(i = 0; i < NDIRECT; i++){ if(ip->addrs[i]){ bfree(ip->dev, ip->addrs[i]); ip->addrs[i] = 0; } }`. -/
def freeDirect : Nat → FS → FS
  | 0, s => s
  | n + 1, s =>
    let s1 := freeDirect n s
    if s1.addrs n ≠ 0 then setAddr (bfree s1 (s1.addrs n)) n 0 else s1

/-- The first `n` rounds of the leaf loop on the buffer of block `blk`, in the
double-indirect tier `for(j = 0; j < NINDIRECT; j++){ if(a2[j]) bfree(ip->dev, a2[j]); }`. -/
def freeLeaves (blk : Nat) : Nat → FS → FS
  | 0, s => s
  | n + 1, s =>
    let s1 := freeLeaves blk n s
    if s1.disk blk n ≠ 0 then bfree s1 (s1.disk blk n) else s1

/-- Modelled from the spec: the inner loop and the `bfree` of the pointer block
of the single-indirect tier are cut out of the sources at hand; the spec has
"if the pointer block is allocated, load it, free every non-zero leaf entry
within it, then free the pointer block itself and zero its slot", which is the
leaf loop over the single-indirect block followed by `bfree` of that block.  The
guard `if(ip->addrs[NDIRECT])` and the final `ip->addrs[NDIRECT] = 0` are in the source. -/
def freeSingle (BSIZE : Nat) (s : FS) : FS :=
  if s.addrs NDIRECT ≠ 0 then
    let s1 := freeLeaves (s.addrs NDIRECT) (NINDIRECT BSIZE) s
    setAddr (bfree s1 (s1.addrs NDIRECT)) NDIRECT 0
  else s

/-- The first `n` rounds of the outer loop of the double-indirect tier,
`for(i = 0; i < NINDIRECT; i++){ if(a[i]){ bp2 = bread(ip->dev, a[i]); .. bfree(ip->dev, a[i]); } }`
on the buffer of block `blk`. -/
def freeSecondLevel (BSIZE : Nat) (blk : Nat) : Nat → FS → FS
  | 0, s => s
  | n + 1, s =>
    let s1 := freeSecondLevel BSIZE blk n s
    if s1.disk blk n ≠ 0 then
      bfree (freeLeaves (s1.disk blk n) (NINDIRECT BSIZE) s1) (s1.disk blk n)
    else s1

/-- The block under `// Free double-indirect blocks.`; its guard and its last
two statements read the slot `ip->addrs[NDIRECT]`, as the source does. -/
def freeDouble (BSIZE : Nat) (s : FS) : FS :=
  if s.addrs NDIRECT ≠ 0 then
    let s1 := freeSecondLevel BSIZE (s.addrs NDIRECT) (NINDIRECT BSIZE) s
    setAddr (bfree s1 (s1.addrs NDIRECT)) NDIRECT 0
  else s

/-- The function `itrunc(ip)`: the three tiers, then `ip->size = 0`. -/
def itrunc (BSIZE : Nat) (s : FS) : FS :=
  { freeDouble BSIZE (freeSingle BSIZE (freeDirect NDIRECT s)) with size := 0 }

/-- The function `itrunc` without the block under `// Free double-indirect blocks.`. -/
def itruncNoDouble (BSIZE : Nat) (s : FS) : FS :=
  { freeSingle BSIZE (freeDirect NDIRECT s) with size := 0 }

/-- The blocks `itrunc` has to release according to the spec, tier by tier:
the non-zero direct entries; the non-zero entries of the single-indirect block
and that block; for the double-indirect block its non-zero first-level entries,
each with its non-zero leaves, and the block itself. -/
def leavesOf (s : FS) (blk n : Nat) : List Nat :=
  ((List.range n).map (s.disk blk)).filter (fun b => b ≠ 0)

/-- The non-zero direct entries, in slot order. -/
def directBlocks (s : FS) : List Nat :=
  ((List.range NDIRECT).map s.addrs).filter (fun b => b ≠ 0)

/-- The blocks of the single-indirect tier: leaves, then the pointer block. -/
def singleBlocks (BSIZE : Nat) (s : FS) : List Nat :=
  if s.addrs NDIRECT ≠ 0 then
    leavesOf s (s.addrs NDIRECT) (NINDIRECT BSIZE) ++ [s.addrs NDIRECT]
  else []

/-- The blocks of the double-indirect tier: for each non-zero first-level entry
its leaves and the second-level block, then the double-indirect block. -/
def doubleBlocks (BSIZE : Nat) (s : FS) : List Nat :=
  if s.addrs (NDIRECT + 1) ≠ 0 then
    ((leavesOf s (s.addrs (NDIRECT + 1)) (NINDIRECT BSIZE)).map
        (fun b => leavesOf s b (NINDIRECT BSIZE) ++ [b])).flatten
      ++ [s.addrs (NDIRECT + 1)]
  else []

/-- Every block reachable from the address table. -/
def reachable (BSIZE : Nat) (s : FS) : List Nat :=
  directBlocks s ++ singleBlocks BSIZE s ++ doubleBlocks BSIZE s

/-- A file is filled by resolving the logical blocks `0, .., n-1` in turn;
the calls are made with valid indices, so the returned number is dropped. -/
def fillFile (BSIZE : Nat) : Nat → FS → FS
  | 0, s => s
  | n + 1, s => (bmap BSIZE (fillFile BSIZE n s) n).2

/-- An inode with no block and an allocator handing out `base, base+1, ..`. -/
def emptyFS (base : Nat) : FS :=
  { addrs := fun _ => 0, size := 0, disk := fun _ _ => 0, free := fun k => base + k, freed := [] }

/-- An inode whose only block is an empty double-indirect block, block 50,
with an allocator handing out 100, 101, .. -/
def dindFS : FS :=
  { addrs := fun i => if i = NDIRECT + 1 then 50 else 0, size := 0, disk := fun _ _ => 0,
    free := fun k => 100 + k, freed := [] }

/-- The number of blocks `bmap` allocates for the double-indirect slot itself:
one when the slot is zero, none otherwise. -/
def slotAllocs (s : FS) : Nat :=
  if s.addrs (NDIRECT + 1) = 0 then 1 else 0

/-- An inode whose double-indirect block 50 lists the second-level block 60 at
entry 1 and nothing at entry 0, block 60 holding the leaf 70 at entry 0, with
an allocator handing out 100, 101, .. -/
def pathFS : FS :=
  { addrs := fun i => if i = NDIRECT + 1 then 50 else 0, size := 0,
    disk := fun b i => if b = 50 ∧ i = 1 then 60 else if b = 60 ∧ i = 0 then 70 else 0,
    free := fun k => 100 + k, freed := [] }

/-- An inode whose single-indirect block 40 holds the leaf 41 at entry 0, with
an allocator handing out 100, 101, .. -/
def singleFS : FS :=
  { addrs := fun i => if i = NDIRECT then 40 else 0, size := 0,
    disk := fun b i => if b = 40 ∧ i = 0 then 41 else 0,
    free := fun k => 100 + k, freed := [] }

/-! ## The allocator contract -/

/-- The next `n` block numbers of the allocator are non-zero, are not held
by the address table of the inode, and are pairwise distinct. -/
def FreshAlloc (s : FS) (n : Nat) : Prop :=
  ∀ k, k < n →
    s.free k ≠ 0 ∧ (∀ i, i < NDIRECT + 2 → s.free k ≠ s.addrs i) ∧
      (∀ j, j < k → s.free j ≠ s.free k)

/-! ## Symbolic links in sys_open (kernel/sysfile.c)

Bytes are `Nat` (taken modulo 256 where they are decoded), a path is the list
of the bytes of a C string without its terminator.  `MAXPATH` and `NDEV`
(kernel/param.h) are not part of the sources at hand and are parameters.
The flag tests `omode & O_CREATE`, `omode & O_NOFOLLOW` and
`omode == O_RDONLY` are taken as three booleans, the values of the flags
(kernel/fcntl.h) being absent as well. -/

/-- The inode types `T_DIR`, `T_FILE`, `T_DEVICE`, `T_SYMLINK` (kernel/stat.h). -/
inductive IType where
  | T_DIR
  | T_FILE
  | T_DEVICE
  | T_SYMLINK
  deriving DecidableEq, Repr

/-- What `sys_open` reads of the file system: path lookup (`namei`), and per
inode number its type, its content bytes and its major device number. -/
structure Names where
  namei : List Nat → Option Nat
  type : Nat → IType
  content : Nat → List Nat
  major : Nat → Int

/-- Modelled from the spec: `readi` (kernel/fs.c, not among the sources at hand),
"readInodeContent(inode, destIsUser, buffer, offset, count) -> bytesTransferred":
the bytes of the content from `off` on, at most `n` of them; the returned count
is the length of the list. -/
def readi (fs : Names) (ip off n : Nat) : List Nat :=
  ((fs.content ip).drop off).take n

/-- The `int` stored in four bytes, least significant first (two's complement). -/
def decodeInt (bs : List Nat) : Int :=
  let u := bs.getD 0 0 % 256 + 256 * (bs.getD 1 0 % 256) + 65536 * (bs.getD 2 0 % 256)
    + 16777216 * (bs.getD 3 0 % 256)
  if u < 2147483648 then (u : Int) else (u : Int) - 4294967296

/-- The four bytes of an `int`, least significant first, as `writei` stores
`&len` with `sizeof(int)`. -/
def encodeInt (v : Int) : List Nat :=
  let u := (v % 4294967296).toNat
  [u % 256, u / 256 % 256, u / 65536 % 256, u / 16777216 % 256]

/-- The C string held in a buffer: the bytes before the first zero byte. -/
def cstr (buf : List Nat) : List Nat :=
  buf.takeWhile (fun b => b ≠ 0)

/-- The check `len <= 0 || len > MAXPATH` of the resolution step. -/
def lenCorrupt (MAXPATH : Nat) (len : Int) : Bool :=
  decide (len ≤ 0) || decide (len > (MAXPATH : Int))

/-- One round of the body of the `while` loop of `sys_open`: read the length,
check it, read `len + 1` bytes, store the terminator at `target[len]`, look the
target up.  `none` is `return -1`, `some ip` the inode of the next round. -/
def followStep (MAXPATH : Nat) (fs : Names) (ip : Nat) : Option Nat :=
  let hdr := readi fs ip 0 4
  if hdr.length ≠ 4 then none
  else
    let len := decodeInt hdr
    if lenCorrupt MAXPATH len then none
    else
      let body := readi fs ip 4 (len.toNat + 1)
      if body.length ≠ len.toNat + 1 then none
      else fs.namei (cstr (body.take len.toNat ++ [0]))

/-- The loop `while (ip->type == T_SYMLINK && count < 10) { .. count++; }`.
The result is `none` for a `return -1` inside the body, else the values of `ip` and
`count` on leaving the loop.  `fuel` bounds the number of rounds; the loop
makes at most `10 - count` of them, so `sys_open` runs it with fuel 10. -/
def followLinks (MAXPATH : Nat) (fs : Names) : Nat → Nat → Nat → Option (Nat × Nat)
  | 0, ip, count => some (ip, count)
  | fuel + 1, ip, count =>
    if fs.type ip = IType.T_SYMLINK ∧ count < 10 then
      match followStep MAXPATH fs ip with
      | none => none
      | some ip1 => followLinks MAXPATH fs fuel ip1 (count + 1)
    else some (ip, count)

/-- The block `if ((ip->type == T_SYMLINK) && !(omode & O_NOFOLLOW)) { .. }` of
`sys_open`, entered with the inode `ip` found by `namei(path)`: the loop, then
`if (count >= 10) return -1`.  `none` is `return -1`. -/
def resolveSymlink (MAXPATH : Nat) (fs : Names) (ip : Nat) (nofollow : Bool) : Option Nat :=
  if fs.type ip = IType.T_SYMLINK ∧ nofollow = false then
    match followLinks MAXPATH fs 10 ip 0 with
    | none => none
    | some r => if r.2 ≥ 10 then none else some r.1
  else some ip

/-- The tests `sys_open` makes on its mode argument. -/
structure OMode where
  create : Bool
  nofollow : Bool
  rdonly : Bool

/-- The function `sys_open` on an existing path or with `O_CREATE`.  `created`
is the result of `create(path, T_FILE, 0, 0)`, `fd` the descriptor `filealloc`
and `fdalloc` come up with (`none` when one of them fails).  The result is
`none` for `return -1`, else the descriptor and the inode stored in `f->ip`. -/
def sys_open (MAXPATH NDEV : Nat) (fs : Names) (created fd : Option Nat)
    (path : List Nat) (m : OMode) : Option (Nat × Nat) :=
  let found : Option Nat :=
    if m.create then created
    else
      match fs.namei path with
      | none => none
      | some ip0 =>
        match resolveSymlink MAXPATH fs ip0 m.nofollow with
        | none => none
        | some ip =>
          if fs.type ip = IType.T_DIR ∧ m.rdonly = false then none else some ip
  match found with
  | none => none
  | some ip =>
    if fs.type ip = IType.T_DEVICE ∧ (fs.major ip < 0 ∨ fs.major ip ≥ (NDEV : Int)) then none
    else
      match fd with
      | none => none
      | some d => some (d, ip)

/-- The content `sys_symlink` writes for a target: `len = strlen(target)` in
four bytes at offset 0, then `len + 1` bytes of the target buffer at offset 4. -/
def symlinkContent (target : List Nat) : List Nat :=
  encodeInt (target.length : Int) ++ target ++ [0]

/-- A chain of `k` symbolic links for the examples: inode `j < k` is a link whose
content names inode `j + 1`, inode `k` is a regular file; the path of inode
`j` is the one byte `j + 1`. -/
def chainFS (k : Nat) : Names :=
  { namei := fun p => match p with
      | [b] => if 1 ≤ b ∧ b ≤ k + 1 then some (b - 1) else none
      | _ => none
    type := fun i => if i < k then IType.T_SYMLINK else IType.T_FILE
    content := fun i => if i < k then symlinkContent [i + 2] else []
    major := fun _ => 0 }

/-- The ways one round of the resolution loop returns -1: short read of the
length, the "corrupted symlink inode" check, short read of the target, failed
lookup of the target. -/
inductive StepErr where
  | shortLength
  | corrupt
  | shortTarget
  | notFound
  deriving DecidableEq, Repr

/-- The outcome of one round of the resolution loop: the inode of the next
round, or the reason of `return -1`. -/
inductive StepRes where
  | next (ip : Nat)
  | fail (e : StepErr)
  deriving DecidableEq, Repr

/-- One round of the body of the `while` loop of `sys_open`, as `followStep`,
telling the four `return -1` apart; `namei` is called on the last line only. -/
def followStepE (MAXPATH : Nat) (fs : Names) (ip : Nat) : StepRes :=
  let hdr := readi fs ip 0 4
  if hdr.length ≠ 4 then StepRes.fail StepErr.shortLength
  else
    let len := decodeInt hdr
    if lenCorrupt MAXPATH len then StepRes.fail StepErr.corrupt
    else
      let body := readi fs ip 4 (len.toNat + 1)
      if body.length ≠ len.toNat + 1 then StepRes.fail StepErr.shortTarget
      else
        match fs.namei (cstr (body.take len.toNat ++ [0])) with
        | none => StepRes.fail StepErr.notFound
        | some ip1 => StepRes.next ip1

/-- The result of a round with the reason of failure dropped. -/
def StepRes.toOption : StepRes → Option Nat
  | StepRes.next ip => some ip
  | StepRes.fail _ => none

/-- Modelled from the spec: `writei` (kernel/fs.c, not among the sources at hand),
"writeInodeContent(inode, destIsUser, buffer, offset, count) -> bytesTransferred":
the content with the bytes `src` stored from offset `off` on; all of them are
transferred. -/
def writei (content : List Nat) (off : Nat) (src : List Nat) : List Nat :=
  content.take off ++ src ++ content.drop (off + src.length)

/-- The function `sys_symlink(target, path)`.  `target` and `path` are the
strings `argstr` fetches into buffers of `MAXPATH` bytes, which fails for a
string that does not fit with its terminator; `created` is the result of
`create(path, T_SYMLINK, 0, 0)`, a new inode without content that `path` names
from then on.  The two `writei` store `len = strlen(target)` and then the
`len + 1` bytes of the target and its terminator.  `none` is `return -1`, else
the file system after the call. -/
def sys_symlink (MAXPATH : Nat) (fs : Names) (created : Option Nat)
    (target path : List Nat) : Option Names :=
  if target.length ≥ MAXPATH ∨ path.length ≥ MAXPATH then none
  else
    match created with
    | none => none
    | some ip =>
      let len : Int := (target.length : Int)
      let c1 := writei [] 0 (encodeInt len)
      let c2 := writei c1 4 (target ++ [0])
      some { namei := fun p => if p = path then some ip else fs.namei p
             type := fun i => if i = ip then IType.T_SYMLINK else fs.type i
             content := fun i => if i = ip then c2 else fs.content i
             major := fs.major }

/-- A file system for the examples: the path "/a/b" names the regular file
inode 5, nothing else exists. -/
def abFS : Names :=
  { namei := fun p => if p = [47, 97, 47, 98] then some 5 else none
    type := fun _ => IType.T_FILE
    content := fun _ => []
    major := fun _ => 0 }

/-! ## sys_unlink (kernel/sysfile.c)

The state is what `sys_unlink` changes: link counts and directory entries.
The answers of `nameiparent`, `dirlookup` and `isdirempty` (not among the
sources at hand) on the state before the call are taken as given.  `writei` of
a zeroed entry at the offset `dirlookup` found transfers the whole entry, so
`panic("unlink: writei")` is not taken.  What `iunlockput` does to an inode
whose link count has reached 0 (its blocks and the inode are released) touches
no link count and no directory entry and is left out. -/

/-- A directory entry `struct dirent`: inode number and name. -/
structure Dirent where
  inum : Nat
  name : List Nat
  deriving DecidableEq, Repr

/-- The inodes and directories `sys_unlink` works on: type and link count per
inode number, and the entry at each offset of each directory. -/
structure Dirs where
  type : Nat → IType
  nlink : Nat → Int
  entry : Nat → Nat → Dirent

/-- The answers of the lookup helpers: `nameiparent(path, name)` gives the
parent directory and the last path element, `dirlookup(dp, name, &off)` the
inode of the entry and its offset, `isdirempty(ip)` whether a directory has
only "." and "..". -/
structure Lookup where
  nameiparent : List Nat → Option (Nat × List Nat)
  dirlookup : Nat → List Nat → Option (Nat × Nat)
  isdirempty : Nat → Bool

/-- What a call of `sys_unlink` ends in: a return value with the state it
leaves, or a `panic`. -/
inductive UnlinkResult where
  | ret (v : Int) (s : Dirs)
  | panic

/-- The statements `memset(&de, 0, sizeof(de)); writei(dp, 0, (uint64)&de, off, sizeof(de))`. -/
def clearEntry (s : Dirs) (dp off : Nat) : Dirs :=
  { s with entry := fun d o => if d = dp ∧ o = off then { inum := 0, name := [] } else s.entry d o }

/-- The statements `ip->nlink--; iupdate(ip);`. -/
def dropLink (s : Dirs) (ip : Nat) : Dirs :=
  { s with nlink := fun i => if i = ip then s.nlink i - 1 else s.nlink i }

/-- The function `sys_unlink` on the path fetched by `argstr`. -/
def sys_unlink (lk : Lookup) (s : Dirs) (path : List Nat) : UnlinkResult :=
  match lk.nameiparent path with
  | none => UnlinkResult.ret (-1) s
  | some (dp, name) =>
    if name = [46] ∨ name = [46, 46] then UnlinkResult.ret (-1) s
    else
      match lk.dirlookup dp name with
      | none => UnlinkResult.ret (-1) s
      | some (ip, off) =>
        if s.nlink ip < 1 then UnlinkResult.panic
        else if s.type ip = IType.T_DIR ∧ lk.isdirempty ip = false then UnlinkResult.ret (-1) s
        else if s.type ip = IType.T_SYMLINK then
          UnlinkResult.ret 0 (dropLink (clearEntry s dp off) ip)
        else
          let s1 := clearEntry s dp off
          let s2 := if s1.type ip = IType.T_DIR then dropLink s1 dp else s1
          UnlinkResult.ret 0 (dropLink s2 ip)

/-- A directory tree for the examples: the root directory inode 1 holds at
offset 32 the entry "l" for the symbolic link inode 7 and at offset 48 the
entry "d" for the non-empty directory inode 8; the link names the file inode 5. -/
def treeDirs : Dirs :=
  { type := fun i => if i = 1 ∨ i = 8 then IType.T_DIR else if i = 7 then IType.T_SYMLINK
      else IType.T_FILE
    nlink := fun i => if i = 1 then 3 else if i = 8 then 2 else 1
    entry := fun d o => if d = 1 ∧ o = 32 then { inum := 7, name := [108] }
      else if d = 1 ∧ o = 48 then { inum := 8, name := [100] } else { inum := 0, name := [] } }

/-- The lookups on `treeDirs`: "/l" and "/d" are found in the root directory. -/
def treeLookup : Lookup :=
  { nameiparent := fun p => if p = [47, 108] then some (1, [108])
      else if p = [47, 100] then some (1, [100]) else none
    dirlookup := fun dp n => if dp = 1 ∧ n = [108] then some (7, 32)
      else if dp = 1 ∧ n = [100] then some (8, 48) else none
    isdirempty := fun _ => false }

/-! ## Buffer indices of the resolution step, and examples -/

/-- The indices of the buffer `char target[MAXPATH]` one round of the resolution
loop writes: `readi(ip, 0, (uint64)target, sizeof(int), len + 1)` stores the bytes it
transfers at `target[0]`, `target[1]`, .., and after a full read the round
stores the terminator at `target[len]`. -/
def targetWrites (MAXPATH : Nat) (fs : Names) (ip : Nat) : List Nat :=
  let hdr := readi fs ip 0 4
  if hdr.length ≠ 4 then []
  else
    let len := decodeInt hdr
    if lenCorrupt MAXPATH len then []
    else
      let body := readi fs ip 4 (len.toNat + 1)
      if body.length ≠ len.toNat + 1 then List.range body.length
      else List.range body.length ++ [len.toNat]

/-- An on-disk symbolic link whose length prefix is 128 and whose content goes
on for 129 more bytes (128 times "a", then a terminator): inode 0, named by
the path "l". -/
def overlongFS : Names :=
  { namei := fun p => if p = [108] then some 0 else none
    type := fun i => if i = 0 then IType.T_SYMLINK else IType.T_FILE
    content := fun i => if i = 0 then encodeInt 128 ++ List.replicate 128 97 ++ [0] else []
    major := fun _ => 0 }

/-- The file system after `symlink("", "/c")` on `abFS`, the new link being inode 7. -/
def emptyLinkFS : Names :=
  (sys_symlink 128 abFS (some 7) [] [47, 99]).getD abFS

/-! ## The index arithmetic of bmap in machine integers -/

/-- The value an expression has once stored in a `uint`: reduced modulo 2^32. -/
def toU32 (x : Int) : Nat := (x % 4294967296).toNat

/-- The value an expression has once stored in an `int`: two's complement on 32 bits. -/
def toI32 (x : Int) : Int :=
  if x % 4294967296 < 2147483648 then x % 4294967296 else x % 4294967296 - 4294967296

/-- The values `i` takes in `for (int i = 0; i <= index; i++)`. -/
def loopIndices (index : Int) : List Int :=
  if index < 0 then [] else (List.range (index.toNat + 1)).map Int.ofNat

/-- The indices `bmap(ip, bn)` uses, with the arithmetic of the source on
`uint bn` and `int index`: the slots of `ip->addrs` it reads or writes and the
indices into pointer blocks (`a[bn]`, `a[i]`), in order.  `none` is the fatal
path.  `NINDIRECT` and `NDINDIRECT` are of type `size_t` and taken exact. -/
def bmapIndices (BSIZE : Nat) (bn : Nat) : Option (List Nat × List Int) :=
  if bn < NDIRECT then some ([bn], [])
  else
    let bn1 := toU32 ((bn : Int) - (NDIRECT : Int))
    if bn1 < NINDIRECT BSIZE then some ([NDIRECT], [(bn1 : Int)])
    else
      let bn2 := toU32 ((bn1 : Int) - (NINDIRECT BSIZE : Int))
      if bn2 < NDINDIRECT BSIZE then
        let index := toI32 ((bn2 / NINDIRECT BSIZE : Nat) : Int)
        let bn3 := toU32 ((bn2 : Int) - (NINDIRECT BSIZE : Int) * index)
        some ([NDIRECT + 1], loopIndices index ++ [(bn3 : Int)])
      else none

/-! # Theorems -/

/-! ## Lemmas on the two allocate-if-zero statements -/

theorem addrOrAlloc_of_ne (s : FS) (i : Nat) (h : s.addrs i ≠ 0) :
    addrOrAlloc s i = (s.addrs i, s) := by
  simp [addrOrAlloc, h]

theorem addrOrAlloc_of_eq (s : FS) (i : Nat) (h : s.addrs i = 0) :
    addrOrAlloc s i = (s.free 0, setAddr (balloc s).2 i (s.free 0)) := by
  simp [addrOrAlloc, h, balloc]

theorem wordOrAlloc_of_ne (s : FS) (blk i : Nat) (h : s.disk blk i ≠ 0) :
    wordOrAlloc s blk i = (s.disk blk i, s) := by
  simp [wordOrAlloc, h]

theorem wordOrAlloc_of_eq (s : FS) (blk i : Nat) (h : s.disk blk i = 0) :
    wordOrAlloc s blk i = (s.free 0, setWord (balloc s).2 blk i (s.free 0)) := by
  simp [wordOrAlloc, h, balloc]

theorem wordOrAlloc_addrs (s : FS) (blk i : Nat) :
    (wordOrAlloc s blk i).2.addrs = s.addrs := by
  unfold wordOrAlloc; split <;> simp [setWord, balloc]

theorem wordOrAlloc_size (s : FS) (blk i : Nat) :
    (wordOrAlloc s blk i).2.size = s.size := by
  unfold wordOrAlloc; split <;> simp [setWord, balloc]

theorem wordOrAlloc_freed (s : FS) (blk i : Nat) :
    (wordOrAlloc s blk i).2.freed = s.freed := by
  unfold wordOrAlloc; split <;> simp [setWord, balloc]

theorem wordOrAlloc_free (s : FS) (blk i : Nat) :
    ∃ m, m ≤ 1 ∧ ∀ k, (wordOrAlloc s blk i).2.free k = s.free (k + m) := by
  unfold wordOrAlloc; split
  · exact ⟨1, le_refl 1, fun k => by simp [setWord, balloc]⟩
  · exact ⟨0, by omega, fun k => by simp⟩

theorem wordOrAlloc_fst_ne (s : FS) (blk i : Nat) (h : s.free 0 ≠ 0) :
    (wordOrAlloc s blk i).1 ≠ 0 := by
  unfold wordOrAlloc; split
  · simpa [balloc] using h
  · assumption

theorem wordOrAlloc_disk_self (s : FS) (blk i : Nat) :
    (wordOrAlloc s blk i).2.disk blk i = (wordOrAlloc s blk i).1 := by
  unfold wordOrAlloc; split <;> simp [setWord, balloc]

theorem wordOrAlloc_disk_other (s : FS) (blk i b j : Nat) (hb : s.free 0 ≠ b)
    (hne : b ≠ blk ∨ j ≠ i) :
    (wordOrAlloc s blk i).2.disk b j = s.disk b j := by
  unfold wordOrAlloc; split
  · rcases hne with h | h
    · simp [setWord, balloc, h, Ne.symm hb]
    · by_cases hbb : b = blk
      · subst hbb
        simp [setWord, balloc, h, Ne.symm hb]
      · simp [setWord, balloc, hbb, Ne.symm hb]
  · rfl

/-! ## The first-level loop -/

theorem fill_spec (blk a0 : Nat) (s : FS) (n : Nat)
    (h0 : ∀ k, k < n → s.free k ≠ 0) (hb : ∀ k, k < n → s.free k ≠ blk) :
    (fillFirstLevel blk n (a0, s)).2.addrs = s.addrs ∧
    (fillFirstLevel blk n (a0, s)).2.size = s.size ∧
    (fillFirstLevel blk n (a0, s)).2.freed = s.freed ∧
    (∃ m, m ≤ n ∧ ∀ k, (fillFirstLevel blk n (a0, s)).2.free k = s.free (k + m)) ∧
    (∀ i, i < n → (fillFirstLevel blk n (a0, s)).2.disk blk i ≠ 0) ∧
    (∀ i, (i < n → s.disk blk i ≠ 0) →
      (fillFirstLevel blk n (a0, s)).2.disk blk i = s.disk blk i) ∧
    (∀ b, b ≠ blk → (∀ k, k < n → s.free k ≠ b) →
      ∀ j, (fillFirstLevel blk n (a0, s)).2.disk b j = s.disk b j) ∧
    (∀ i, i < n → s.disk blk i = 0 →
      ∃ k, k < n ∧ (fillFirstLevel blk n (a0, s)).2.disk blk i = s.free k) ∧
    (0 < n → (fillFirstLevel blk n (a0, s)).1 = (fillFirstLevel blk n (a0, s)).2.disk blk (n - 1)) := by
  induction n with
  | zero => simp [fillFirstLevel]
  | succ n ih =>
    obtain ⟨ha, hs, hf, ⟨m, hm, hfree⟩, hnz, hkeep, hoth, hnew, _⟩ :=
      ih (fun k hk => h0 k (by omega)) (fun k hk => hb k (by omega))
    have hp0 : (fillFirstLevel blk n (a0, s)).2.free 0 = s.free m := by
      simpa using hfree 0
    have hp0nz : (fillFirstLevel blk n (a0, s)).2.free 0 ≠ 0 := by
      rw [hp0]; exact h0 m (by omega)
    have hp0b : (fillFirstLevel blk n (a0, s)).2.free 0 ≠ blk := by
      rw [hp0]; exact hb m (by omega)
    simp only [fillFirstLevel]
    refine ⟨?_, ?_, ?_, ?_, ?_, ?_, ?_, ?_, ?_⟩
    · rw [wordOrAlloc_addrs, ha]
    · rw [wordOrAlloc_size, hs]
    · rw [wordOrAlloc_freed, hf]
    · obtain ⟨m1, hm1, hfree1⟩ := wordOrAlloc_free (fillFirstLevel blk n (a0, s)).2 blk n
      refine ⟨m + m1, by omega, fun k => ?_⟩
      rw [hfree1, hfree]; congr 1; omega
    · intro i hi
      by_cases hin : i = n
      · subst hin
        rw [wordOrAlloc_disk_self]
        exact wordOrAlloc_fst_ne _ _ _ hp0nz
      · rw [wordOrAlloc_disk_other _ _ _ _ _ hp0b (Or.inr hin)]
        exact hnz i (by omega)
    · intro i hi
      by_cases hin : i = n
      · subst hin
        have h1 : (fillFirstLevel blk i (a0, s)).2.disk blk i = s.disk blk i :=
          hkeep i (fun h => absurd h (lt_irrefl i))
        have h2 : (fillFirstLevel blk i (a0, s)).2.disk blk i ≠ 0 := by
          rw [h1]; exact hi (by omega)
        rw [wordOrAlloc_of_ne _ _ _ h2]
        exact h1
      · rw [wordOrAlloc_disk_other _ _ _ _ _ hp0b (Or.inr hin)]
        exact hkeep i (fun h => hi (by omega))
    · intro b hbne hfb j
      have : (fillFirstLevel blk n (a0, s)).2.free 0 ≠ b := by
        rw [hp0]; exact hfb m (by omega)
      rw [wordOrAlloc_disk_other _ _ _ _ _ this (Or.inl hbne)]
      exact hoth b hbne (fun k hk => hfb k (by omega)) j
    · intro i hi hz
      by_cases hin : i = n
      · subst hin
        have h1 : (fillFirstLevel blk i (a0, s)).2.disk blk i = 0 := by
          rw [hkeep i (fun h => absurd h (lt_irrefl i))]; exact hz
        refine ⟨m, by omega, ?_⟩
        rw [wordOrAlloc_disk_self, wordOrAlloc_of_eq _ _ _ h1]
        exact hp0
      · obtain ⟨k, hk, hkk⟩ := hnew i (by omega) hz
        refine ⟨k, by omega, ?_⟩
        rw [wordOrAlloc_disk_other _ _ _ _ _ hp0b (Or.inr hin)]
        exact hkk
    · intro _
      simp [wordOrAlloc_disk_self]

theorem fill_id (blk a0 : Nat) (s : FS) (n : Nat) (h : ∀ i, i < n → s.disk blk i ≠ 0) :
    (fillFirstLevel blk n (a0, s)).2 = s ∧
      (0 < n → (fillFirstLevel blk n (a0, s)).1 = s.disk blk (n - 1)) := by
  induction n with
  | zero => simp [fillFirstLevel]
  | succ n ih =>
    have h1 := (ih (fun i hi => h i (by omega))).1
    simp only [fillFirstLevel, h1]
    rw [wordOrAlloc_of_ne _ _ _ (h n (by omega))]
    simp

theorem descend_spec (D L1 L2 : Nat) (s : FS)
    (h0 : ∀ k, k < L1 + 2 → s.free k ≠ 0) (hb : ∀ k, k < L1 + 2 → s.free k ≠ D) :
    (descend D L1 L2 s).1 ≠ 0 ∧
    (descend D L1 L2 s).2.addrs = s.addrs ∧
    (∀ i, i ≤ L1 → (descend D L1 L2 s).2.disk D i ≠ 0) ∧
    (descend D L1 L2 s).2.disk ((descend D L1 L2 s).2.disk D L1) L2 = (descend D L1 L2 s).1 ∧
    (∀ i, i ≤ L1 → s.disk D i ≠ 0 → (descend D L1 L2 s).2.disk D i = s.disk D i) ∧
    (s.disk D L1 ≠ D → ∀ i, L1 < i → (descend D L1 L2 s).2.disk D i = s.disk D i) ∧
    (s.disk D L1 ≠ 0 → (∀ k, k < L1 + 1 → s.free k ≠ s.disk D L1) →
      s.disk (s.disk D L1) L2 ≠ 0 → (descend D L1 L2 s).1 = s.disk (s.disk D L1) L2) := by
  obtain ⟨ha, _, _, ⟨m, hm, hfree⟩, hnz, hkeep, hoth, hnew, hlast⟩ :=
    fill_spec D D s (L1 + 1) (fun k hk => h0 k (by omega)) (fun k hk => hb k (by omega))
  have hS := hlast (by omega)
  simp only [Nat.add_sub_cancel] at hS
  have hp0 : (fillFirstLevel D (L1 + 1) (D, s)).2.free 0 = s.free m := by
    simpa using hfree 0
  have hp0nz : (fillFirstLevel D (L1 + 1) (D, s)).2.free 0 ≠ 0 := by
    rw [hp0]; exact h0 m (by omega)
  have hp0b : (fillFirstLevel D (L1 + 1) (D, s)).2.free 0 ≠ D := by
    rw [hp0]; exact hb m (by omega)
  -- the leaf step leaves the entries up to `L1` of the first-level block alone
  have hlow : ∀ i, i ≤ L1 → (descend D L1 L2 s).2.disk D i
      = (fillFirstLevel D (L1 + 1) (D, s)).2.disk D i := by
    intro i hi
    unfold descend
    by_cases hc : D = (fillFirstLevel D (L1 + 1) (D, s)).1 ∧ i = L2
    · obtain ⟨hc1, hc2⟩ := hc
      have : (fillFirstLevel D (L1 + 1) (D, s)).2.disk
          (fillFirstLevel D (L1 + 1) (D, s)).1 L2 ≠ 0 := by
        rw [← hc1, ← hc2]; exact hnz i (by omega)
      rw [wordOrAlloc_of_ne _ _ _ this]
    · apply wordOrAlloc_disk_other _ _ _ _ _ hp0b
      by_cases hd : D = (fillFirstLevel D (L1 + 1) (D, s)).1
      · exact Or.inr (fun h => hc ⟨hd, h⟩)
      · exact Or.inl hd
  refine ⟨?_, ?_, ?_, ?_, ?_, ?_, ?_⟩
  · exact wordOrAlloc_fst_ne _ _ _ hp0nz
  · unfold descend; rw [wordOrAlloc_addrs, ha]
  · intro i hi; rw [hlow i hi]; exact hnz i (by omega)
  · rw [hlow L1 (le_refl _), ← hS]
    exact wordOrAlloc_disk_self _ _ _
  · intro i hi hne
    rw [hlow i hi]
    exact hkeep i (fun _ => hne)
  · intro hself i hi
    have hSD : (fillFirstLevel D (L1 + 1) (D, s)).1 ≠ D := by
      rw [hS]
      by_cases hz : s.disk D L1 = 0
      · obtain ⟨k, hk, hkk⟩ := hnew L1 (by omega) hz
        rw [hkk]; exact hb k (by omega)
      · rw [hkeep L1 (fun _ => hz)]; exact hself
    unfold descend
    rw [wordOrAlloc_disk_other _ _ _ _ _ hp0b (Or.inl (Ne.symm hSD))]
    exact hkeep i (fun h => absurd h (by omega))
  · intro hne hfS hleaf
    have hSeq : (fillFirstLevel D (L1 + 1) (D, s)).1 = s.disk D L1 := by
      rw [hS]; exact hkeep L1 (fun _ => hne)
    have hcont : (fillFirstLevel D (L1 + 1) (D, s)).2.disk (s.disk D L1) L2
        = s.disk (s.disk D L1) L2 := by
      by_cases hd : s.disk D L1 = D
      · rw [hd]
        apply hkeep
        intro _
        rw [hd] at hleaf; exact hleaf
      · exact hoth _ hd hfS L2
    unfold descend
    rw [hSeq, wordOrAlloc_of_ne _ _ _ (by rw [hcont]; exact hleaf)]
    exact hcont

theorem descend_id (D L1 L2 : Nat) (s : FS) (h : ∀ i, i ≤ L1 → s.disk D i ≠ 0)
    (hleaf : s.disk (s.disk D L1) L2 ≠ 0) :
    descend D L1 L2 s = (s.disk (s.disk D L1) L2, s) := by
  obtain ⟨hid1, hid2⟩ := fill_id D D s (L1 + 1) (fun i hi => h i (by omega))
  have hid3 := hid2 (by omega)
  simp only [Nat.add_sub_cancel] at hid3
  unfold descend
  rw [hid1, hid3, wordOrAlloc_of_ne _ _ _ hleaf]

/-! ## The three tiers of bmap -/

theorem addrOrAlloc_spec (s : FS) (i n : Nat) (hi : i < NDIRECT + 2)
    (hf : FreshAlloc s (n + 1)) :
    (addrOrAlloc s i).1 ≠ 0 ∧
    (addrOrAlloc s i).2.addrs i = (addrOrAlloc s i).1 ∧
    (∀ j, j ≠ i → (addrOrAlloc s i).2.addrs j = s.addrs j) ∧
    (∀ k, k < n → (addrOrAlloc s i).2.free k ≠ 0 ∧
      (addrOrAlloc s i).2.free k ≠ (addrOrAlloc s i).1) ∧
    (∃ m, m ≤ 1 ∧ ∀ k, (addrOrAlloc s i).2.free k = s.free (k + m)) := by
  by_cases h : s.addrs i = 0
  · rw [addrOrAlloc_of_eq s i h]
    refine ⟨(hf 0 (by omega)).1, by simp [setAddr], ?_, ?_, ⟨1, le_refl 1, ?_⟩⟩
    · intro j hj; simp [setAddr, balloc, hj]
    · intro k hk
      refine ⟨by simpa [setAddr, balloc] using (hf (k + 1) (by omega)).1, ?_⟩
      have := (hf (k + 1) (by omega)).2.2 0 (by omega)
      simpa [setAddr, balloc] using Ne.symm this
    · intro k; simp [setAddr, balloc]
  · rw [addrOrAlloc_of_ne s i h]
    refine ⟨h, rfl, fun _ _ => rfl, ?_, ⟨0, by omega, fun k => by simp⟩⟩
    intro k hk
    exact ⟨(hf k (by omega)).1, (hf k (by omega)).2.1 i hi⟩

theorem bmap_direct (BSIZE : Nat) (s : FS) (bn : Nat) (h : bn < NDIRECT) :
    bmap BSIZE s bn = (some (addrOrAlloc s bn).1, (addrOrAlloc s bn).2) := by
  simp [bmap, h]

theorem bmap_single (BSIZE : Nat) (s : FS) (bn : Nat) (h1 : NDIRECT ≤ bn)
    (h2 : bn < NDIRECT + NINDIRECT BSIZE) :
    bmap BSIZE s bn =
      (some (wordOrAlloc (addrOrAlloc s NDIRECT).2 (addrOrAlloc s NDIRECT).1 (bn - NDIRECT)).1,
        (wordOrAlloc (addrOrAlloc s NDIRECT).2 (addrOrAlloc s NDIRECT).1 (bn - NDIRECT)).2) := by
  have h3 : ¬ bn < NDIRECT := by omega
  have h4 : bn - NDIRECT < NINDIRECT BSIZE := by omega
  simp [bmap, h3, h4]

theorem bmap_double (BSIZE : Nat) (s : FS) (bn : Nat) (h1 : NDIRECT + NINDIRECT BSIZE ≤ bn)
    (h2 : bn < MAXFILE BSIZE) :
    bmap BSIZE s bn =
      (some (descend (addrOrAlloc s (NDIRECT + 1)).1
          ((bn - NDIRECT - NINDIRECT BSIZE) / NINDIRECT BSIZE)
          ((bn - NDIRECT - NINDIRECT BSIZE) % NINDIRECT BSIZE) (addrOrAlloc s (NDIRECT + 1)).2).1,
        (descend (addrOrAlloc s (NDIRECT + 1)).1
          ((bn - NDIRECT - NINDIRECT BSIZE) / NINDIRECT BSIZE)
          ((bn - NDIRECT - NINDIRECT BSIZE) % NINDIRECT BSIZE) (addrOrAlloc s (NDIRECT + 1)).2).2) := by
  have h3 : ¬ bn < NDIRECT := by omega
  have h4 : ¬ bn - NDIRECT < NINDIRECT BSIZE := by omega
  have h5 : bn - NDIRECT - NINDIRECT BSIZE < NDINDIRECT BSIZE := by
    unfold MAXFILE at h2; omega
  simp only [bmap, h3, h4, h5, if_true, if_false, descend, Nat.mod_def]

/-- In the double-indirect range the first-level index is below `NINDIRECT`. -/
theorem index_lt (BSIZE : Nat) (bn : Nat) (h2 : bn < MAXFILE BSIZE) :
    (bn - NDIRECT - NINDIRECT BSIZE) / NINDIRECT BSIZE < NINDIRECT BSIZE ∨
      NINDIRECT BSIZE = 0 := by
  by_cases hN : NINDIRECT BSIZE = 0
  · exact Or.inr hN
  · left
    apply Nat.div_lt_of_lt_mul
    unfold MAXFILE NDINDIRECT at h2
    have := Nat.mul_pos (Nat.pos_of_ne_zero hN) (Nat.pos_of_ne_zero hN)
    omega

/-- C1. `bmap` is idempotent: for every inode state and every logical index
`bn < MAXFILE`, when the allocator hands out non-zero, zero-filled, unreferenced
and distinct blocks, `bmap(ip, bn)` returns a block number `r`, and `bmap(ip, bn)`
on the resulting state returns the same `r` (and changes nothing any more). -/
theorem bmap_idempotent (BSIZE : Nat) (s : FS) (bn : Nat) (hbn : bn < MAXFILE BSIZE)
    (hfresh : FreshAlloc s (NINDIRECT BSIZE + 2)) :
    ∃ r, (bmap BSIZE s bn).1 = some r ∧
      bmap BSIZE (bmap BSIZE s bn).2 bn = (some r, (bmap BSIZE s bn).2) := by
  by_cases h1 : bn < NDIRECT
  · -- direct tier
    obtain ⟨hnz, hself, _, _, _⟩ :=
      addrOrAlloc_spec s bn (NINDIRECT BSIZE + 1) (by omega) hfresh
    refine ⟨(addrOrAlloc s bn).1, by rw [bmap_direct _ _ _ h1], ?_⟩
    rw [bmap_direct _ s _ h1, bmap_direct _ _ _ h1]
    dsimp only
    rw [addrOrAlloc_of_ne _ _ (by rw [hself]; exact hnz), hself]
  · by_cases h2 : bn < NDIRECT + NINDIRECT BSIZE
    · -- single-indirect tier
      obtain ⟨hnz, hself, _, hfr, _⟩ :=
        addrOrAlloc_spec s NDIRECT (NINDIRECT BSIZE + 1) (by omega) hfresh
      have hw := wordOrAlloc_fst_ne (addrOrAlloc s NDIRECT).2 (addrOrAlloc s NDIRECT).1
        (bn - NDIRECT) (hfr 0 (by omega)).1
      have hd := wordOrAlloc_disk_self (addrOrAlloc s NDIRECT).2 (addrOrAlloc s NDIRECT).1
        (bn - NDIRECT)
      have ha := wordOrAlloc_addrs (addrOrAlloc s NDIRECT).2 (addrOrAlloc s NDIRECT).1
        (bn - NDIRECT)
      refine ⟨_, by rw [bmap_single _ _ _ (by omega) h2], ?_⟩
      rw [bmap_single _ s _ (by omega) h2, bmap_single _ _ _ (by omega) h2]
      have hI : (wordOrAlloc (addrOrAlloc s NDIRECT).2 (addrOrAlloc s NDIRECT).1
          (bn - NDIRECT)).2.addrs NDIRECT = (addrOrAlloc s NDIRECT).1 := by
        rw [ha, hself]
      dsimp only
      rw [addrOrAlloc_of_ne _ _ (by rw [hI]; exact hnz), hI]
      rw [wordOrAlloc_of_ne _ _ _ (by rw [hd]; exact hw), hd]
    · -- double-indirect tier
      have hlo : NDIRECT + NINDIRECT BSIZE ≤ bn := by omega
      obtain ⟨hnz, hself, _, hfr, _⟩ :=
        addrOrAlloc_spec s (NDIRECT + 1) (NINDIRECT BSIZE + 1) (by omega) hfresh
      have hN : (bn - NDIRECT - NINDIRECT BSIZE) / NINDIRECT BSIZE < NINDIRECT BSIZE := by
        rcases index_lt BSIZE bn hbn with h | h
        · exact h
        · unfold MAXFILE NDINDIRECT at hbn; rw [h] at hbn hlo; omega
      obtain ⟨hr, ha, hlow, hpath, _, _, _⟩ :=
        descend_spec (addrOrAlloc s (NDIRECT + 1)).1
          ((bn - NDIRECT - NINDIRECT BSIZE) / NINDIRECT BSIZE)
          ((bn - NDIRECT - NINDIRECT BSIZE) % NINDIRECT BSIZE) (addrOrAlloc s (NDIRECT + 1)).2
          (fun k hk => (hfr k (by omega)).1) (fun k hk => (hfr k (by omega)).2)
      refine ⟨_, by rw [bmap_double _ _ _ hlo hbn], ?_⟩
      rw [bmap_double _ s _ hlo hbn, bmap_double _ _ _ hlo hbn]
      generalize hD : (addrOrAlloc s (NDIRECT + 1)).1 = D at *
      generalize hs1 : (addrOrAlloc s (NDIRECT + 1)).2 = s1 at *
      generalize hL1 : (bn - NDIRECT - NINDIRECT BSIZE) / NINDIRECT BSIZE = L1 at *
      generalize hL2 : (bn - NDIRECT - NINDIRECT BSIZE) % NINDIRECT BSIZE = L2 at *
      have hI : (descend D L1 L2 s1).2.addrs (NDIRECT + 1) = D := by rw [ha, hself]
      dsimp only
      rw [addrOrAlloc_of_ne _ _ (by rw [hI]; exact hnz), hI]
      rw [descend_id D L1 L2 _ hlow (by rw [hpath]; exact hr), hpath]

/-- Witness for C1: the first block of the double-indirect tier of an empty
inode with 1024-byte blocks and an allocator handing out 100, 101, ... -/
theorem bmap_idempotent_witness :
    267 < MAXFILE 1024 ∧ FreshAlloc (emptyFS 100) (NINDIRECT 1024 + 2) ∧
    ∃ r, (bmap 1024 (emptyFS 100) 267).1 = some r ∧
      bmap 1024 (bmap 1024 (emptyFS 100) 267).2 267 = (some r, (bmap 1024 (emptyFS 100) 267).2) :=
  ⟨by decide, fun k _ => ⟨by simp [emptyFS], fun i _ => by simp [emptyFS],
      fun j hj => by simp [emptyFS]; omega⟩,
    bmap_idempotent 1024 (emptyFS 100) 267 (by decide)
      (fun k _ => ⟨by simp [emptyFS], fun i _ => by simp [emptyFS],
        fun j hj => by simp [emptyFS]; omega⟩)⟩

theorem addrOrAlloc_disk_new (s : FS) (i j : Nat) (h : s.addrs i = 0) :
    (addrOrAlloc s i).2.disk (addrOrAlloc s i).1 j = 0 := by
  rw [addrOrAlloc_of_eq s i h]
  simp [setAddr, balloc]

theorem emptyFS_fresh (base n : Nat) (h : 0 < base) : FreshAlloc (emptyFS base) n := by
  intro k _
  refine ⟨by simp [emptyFS]; omega, fun i _ => by simp [emptyFS]; omega, fun j hj => ?_⟩
  simp [emptyFS]; omega

theorem dindFS_fresh (n : Nat) : FreshAlloc dindFS n := by
  intro k _
  refine ⟨by simp [dindFS], fun i _ => ?_, fun j hj => by simp [dindFS]; omega⟩
  simp only [dindFS]
  split <;> omega

theorem pathFS_fresh (n : Nat) : FreshAlloc pathFS n := by
  intro k _
  refine ⟨by simp [pathFS], fun i _ => ?_, fun j hj => by simp [pathFS]; omega⟩
  simp only [pathFS]
  split <;> omega

theorem singleFS_fresh (n : Nat) : FreshAlloc singleFS n := by
  intro k _
  refine ⟨by simp [singleFS], fun i _ => ?_, fun j hj => by simp [singleFS]; omega⟩
  simp only [singleFS]
  split <;> omega

/-- Counterexample to C2 as stated.  With 1024-byte blocks and `bn = 523`
(`L1 = 1`), on an inode whose double-indirect block 50 is empty, `bmap` sets
entry 0 of block 50, an entry other than the one at index `L1`. -/
theorem bmap_on_demand_counterexample :
    NDIRECT + NINDIRECT 1024 ≤ 523 ∧ 523 < MAXFILE 1024 ∧
    (523 - NDIRECT - NINDIRECT 1024) / NINDIRECT 1024 = 1 ∧
    dindFS.addrs (NDIRECT + 1) = 50 ∧ (bmap 1024 dindFS 523).2.addrs (NDIRECT + 1) = 50 ∧
    dindFS.disk 50 0 = 0 ∧ (bmap 1024 dindFS 523).2.disk 50 0 = 100 := by
  decide

/-- C2, amended.  For `bn` in the double-indirect range with first-level index
`L1`, under the allocator contract and when the double-indirect block does not
list itself at `L1`: after `bmap(ip, bn)` every entry of the double-indirect
block above `L1` is what it was (zero when the block is new), every entry up to
`L1` that was non-zero is unchanged, and all entries `0..L1` are non-zero: the
zero ones among them, not only the one at `L1`, have been allocated. -/
theorem bmap_first_level_frame (BSIZE : Nat) (s : FS) (bn : Nat)
    (hlo : NDIRECT + NINDIRECT BSIZE ≤ bn) (hhi : bn < MAXFILE BSIZE)
    (hfresh : FreshAlloc s (NINDIRECT BSIZE + 2))
    (hself : s.addrs (NDIRECT + 1) ≠ 0 →
      s.disk (s.addrs (NDIRECT + 1)) ((bn - NDIRECT - NINDIRECT BSIZE) / NINDIRECT BSIZE)
        ≠ s.addrs (NDIRECT + 1)) :
    (∀ i, (bn - NDIRECT - NINDIRECT BSIZE) / NINDIRECT BSIZE < i →
      (bmap BSIZE s bn).2.disk ((bmap BSIZE s bn).2.addrs (NDIRECT + 1)) i =
        if s.addrs (NDIRECT + 1) = 0 then 0 else s.disk (s.addrs (NDIRECT + 1)) i) ∧
    (∀ i, i ≤ (bn - NDIRECT - NINDIRECT BSIZE) / NINDIRECT BSIZE →
      s.addrs (NDIRECT + 1) ≠ 0 → s.disk (s.addrs (NDIRECT + 1)) i ≠ 0 →
      (bmap BSIZE s bn).2.disk ((bmap BSIZE s bn).2.addrs (NDIRECT + 1)) i =
        s.disk (s.addrs (NDIRECT + 1)) i) ∧
    (∀ i, i ≤ (bn - NDIRECT - NINDIRECT BSIZE) / NINDIRECT BSIZE →
      (bmap BSIZE s bn).2.disk ((bmap BSIZE s bn).2.addrs (NDIRECT + 1)) i ≠ 0) := by
  obtain ⟨hnz, hslot, _, hfr, _⟩ :=
    addrOrAlloc_spec s (NDIRECT + 1) (NINDIRECT BSIZE + 1) (by omega) hfresh
  have hN : (bn - NDIRECT - NINDIRECT BSIZE) / NINDIRECT BSIZE < NINDIRECT BSIZE := by
    rcases index_lt BSIZE bn hhi with h | h
    · exact h
    · unfold MAXFILE NDINDIRECT at hhi; rw [h] at hhi hlo; omega
  obtain ⟨_, ha, hlow, _, hkeep, hhigh, _⟩ :=
    descend_spec (addrOrAlloc s (NDIRECT + 1)).1
      ((bn - NDIRECT - NINDIRECT BSIZE) / NINDIRECT BSIZE)
      ((bn - NDIRECT - NINDIRECT BSIZE) % NINDIRECT BSIZE) (addrOrAlloc s (NDIRECT + 1)).2
      (fun k hk => (hfr k (by omega)).1) (fun k hk => (hfr k (by omega)).2)
  rw [bmap_double _ s _ hlo hhi]
  dsimp only
  rw [ha, hslot]
  refine ⟨?_, ?_, hlow⟩
  · intro i hi
    by_cases h : s.addrs (NDIRECT + 1) = 0
    · have hz := addrOrAlloc_disk_new s (NDIRECT + 1)
      rw [hhigh (by rw [hz _ h]; exact Ne.symm hnz) i hi, hz _ h, if_pos h]
    · rw [if_neg h]
      rw [addrOrAlloc_of_ne s _ h] at hhigh ⊢
      exact hhigh (hself h) i hi
  · intro i hi h hne
    rw [addrOrAlloc_of_ne s _ h] at hkeep ⊢
    exact hkeep i hi hne

/-- Witness for C2 amended: the input of the counterexample. -/
theorem bmap_first_level_frame_witness :
    (NDIRECT + NINDIRECT 1024 ≤ 523 ∧ 523 < MAXFILE 1024 ∧
      FreshAlloc dindFS (NINDIRECT 1024 + 2)) ∧
    (∀ i, (523 - NDIRECT - NINDIRECT 1024) / NINDIRECT 1024 < i →
      (bmap 1024 dindFS 523).2.disk ((bmap 1024 dindFS 523).2.addrs (NDIRECT + 1)) i =
        if dindFS.addrs (NDIRECT + 1) = 0 then 0 else dindFS.disk (dindFS.addrs (NDIRECT + 1)) i) ∧
    (∀ i, i ≤ (523 - NDIRECT - NINDIRECT 1024) / NINDIRECT 1024 →
      dindFS.addrs (NDIRECT + 1) ≠ 0 → dindFS.disk (dindFS.addrs (NDIRECT + 1)) i ≠ 0 →
      (bmap 1024 dindFS 523).2.disk ((bmap 1024 dindFS 523).2.addrs (NDIRECT + 1)) i =
        dindFS.disk (dindFS.addrs (NDIRECT + 1)) i) ∧
    (∀ i, i ≤ (523 - NDIRECT - NINDIRECT 1024) / NINDIRECT 1024 →
      (bmap 1024 dindFS 523).2.disk ((bmap 1024 dindFS 523).2.addrs (NDIRECT + 1)) i ≠ 0) :=
  ⟨⟨by decide, by decide, dindFS_fresh _⟩,
    bmap_first_level_frame 1024 dindFS 523 (by decide) (by decide) (dindFS_fresh _)
      (fun _ => by decide)⟩

/-- C4. For `bn` in the double-indirect range, with `L1 = bn' / NINDIRECT` and
`L2 = bn' mod NINDIRECT`, under the allocator contract: `bmap(ip, bn)` returns a
non-zero `r`; in the state after the call the slot `addrs[NDIRECT+1]` is
non-zero, entry `L1` of the block it names is non-zero, and `r` is entry `L2` of
the block that entry names.  A zero slot is filled from the allocator.  What was
non-zero on that path is kept: the slot, the first-level entry, and the leaf,
which is then the value returned. -/
theorem bmap_double_path (BSIZE : Nat) (s : FS) (bn : Nat)
    (hlo : NDIRECT + NINDIRECT BSIZE ≤ bn) (hhi : bn < MAXFILE BSIZE)
    (hfresh : FreshAlloc s (NINDIRECT BSIZE + 2))
    (hsecond : s.addrs (NDIRECT + 1) ≠ 0 → ∀ k, k < NINDIRECT BSIZE →
      s.free k ≠ s.disk (s.addrs (NDIRECT + 1))
        ((bn - NDIRECT - NINDIRECT BSIZE) / NINDIRECT BSIZE)) :
    ∃ r, (bmap BSIZE s bn).1 = some r ∧ r ≠ 0 ∧
      (bmap BSIZE s bn).2.addrs (NDIRECT + 1) ≠ 0 ∧
      (bmap BSIZE s bn).2.disk ((bmap BSIZE s bn).2.addrs (NDIRECT + 1))
        ((bn - NDIRECT - NINDIRECT BSIZE) / NINDIRECT BSIZE) ≠ 0 ∧
      r = (bmap BSIZE s bn).2.disk
            ((bmap BSIZE s bn).2.disk ((bmap BSIZE s bn).2.addrs (NDIRECT + 1))
              ((bn - NDIRECT - NINDIRECT BSIZE) / NINDIRECT BSIZE))
            ((bn - NDIRECT - NINDIRECT BSIZE) % NINDIRECT BSIZE) ∧
      (s.addrs (NDIRECT + 1) = 0 → (bmap BSIZE s bn).2.addrs (NDIRECT + 1) = s.free 0) ∧
      (s.addrs (NDIRECT + 1) ≠ 0 →
        (bmap BSIZE s bn).2.addrs (NDIRECT + 1) = s.addrs (NDIRECT + 1) ∧
        (s.disk (s.addrs (NDIRECT + 1))
            ((bn - NDIRECT - NINDIRECT BSIZE) / NINDIRECT BSIZE) ≠ 0 →
          (bmap BSIZE s bn).2.disk (s.addrs (NDIRECT + 1))
              ((bn - NDIRECT - NINDIRECT BSIZE) / NINDIRECT BSIZE) =
            s.disk (s.addrs (NDIRECT + 1))
              ((bn - NDIRECT - NINDIRECT BSIZE) / NINDIRECT BSIZE) ∧
          (s.disk (s.disk (s.addrs (NDIRECT + 1))
              ((bn - NDIRECT - NINDIRECT BSIZE) / NINDIRECT BSIZE))
              ((bn - NDIRECT - NINDIRECT BSIZE) % NINDIRECT BSIZE) ≠ 0 →
            r = s.disk (s.disk (s.addrs (NDIRECT + 1))
              ((bn - NDIRECT - NINDIRECT BSIZE) / NINDIRECT BSIZE))
              ((bn - NDIRECT - NINDIRECT BSIZE) % NINDIRECT BSIZE)))) := by
  obtain ⟨hnz, hslot, _, hfr, _⟩ :=
    addrOrAlloc_spec s (NDIRECT + 1) (NINDIRECT BSIZE + 1) (by omega) hfresh
  have hN : (bn - NDIRECT - NINDIRECT BSIZE) / NINDIRECT BSIZE < NINDIRECT BSIZE := by
    rcases index_lt BSIZE bn hhi with h | h
    · exact h
    · unfold MAXFILE NDINDIRECT at hhi; rw [h] at hhi hlo; omega
  obtain ⟨hr, ha, hlow, hpath, hkeep, _, hleaf⟩ :=
    descend_spec (addrOrAlloc s (NDIRECT + 1)).1
      ((bn - NDIRECT - NINDIRECT BSIZE) / NINDIRECT BSIZE)
      ((bn - NDIRECT - NINDIRECT BSIZE) % NINDIRECT BSIZE) (addrOrAlloc s (NDIRECT + 1)).2
      (fun k hk => (hfr k (by omega)).1) (fun k hk => (hfr k (by omega)).2)
  rw [bmap_double _ s _ hlo hhi]
  dsimp only
  refine ⟨_, rfl, hr, by rw [ha, hslot]; exact hnz,
    by rw [ha, hslot]; exact hlow _ (le_refl _), by rw [ha, hslot, hpath], ?_, ?_⟩
  · intro h
    rw [ha, hslot, addrOrAlloc_of_eq s _ h]
  · intro h
    rw [addrOrAlloc_of_ne s _ h] at hkeep hleaf ha ⊢
    dsimp only at hkeep hleaf ha ⊢
    refine ⟨by rw [ha], fun hne => ⟨hkeep _ (le_refl _) hne, fun hl => ?_⟩⟩
    exact hleaf hne (fun k hk => hsecond h k (by omega)) hl

/-- Witness for C4: block 523 (`L1 = 1`, `L2 = 0`) of an inode whose
double-indirect block 50 lists block 60 at entry 1 and nothing at entry 0, block
60 holding the leaf 70.  The slot, entry 1 and the leaf are kept and 70 is
returned. -/
theorem bmap_double_path_witness :
    (NDIRECT + NINDIRECT 1024 ≤ 523 ∧ 523 < MAXFILE 1024 ∧
      FreshAlloc pathFS (NINDIRECT 1024 + 2) ∧
      pathFS.addrs (NDIRECT + 1) = 50 ∧
      pathFS.disk 50 ((523 - NDIRECT - NINDIRECT 1024) / NINDIRECT 1024) = 60 ∧
      pathFS.disk 60 ((523 - NDIRECT - NINDIRECT 1024) % NINDIRECT 1024) = 70) ∧
    (bmap 1024 pathFS 523).1 = some 70 ∧
    ∃ r, (bmap 1024 pathFS 523).1 = some r ∧ r ≠ 0 ∧
      (bmap 1024 pathFS 523).2.addrs (NDIRECT + 1) ≠ 0 ∧
      (bmap 1024 pathFS 523).2.disk ((bmap 1024 pathFS 523).2.addrs (NDIRECT + 1))
        ((523 - NDIRECT - NINDIRECT 1024) / NINDIRECT 1024) ≠ 0 ∧
      r = (bmap 1024 pathFS 523).2.disk
            ((bmap 1024 pathFS 523).2.disk ((bmap 1024 pathFS 523).2.addrs (NDIRECT + 1))
              ((523 - NDIRECT - NINDIRECT 1024) / NINDIRECT 1024))
            ((523 - NDIRECT - NINDIRECT 1024) % NINDIRECT 1024) ∧
      (pathFS.addrs (NDIRECT + 1) = 0 →
        (bmap 1024 pathFS 523).2.addrs (NDIRECT + 1) = pathFS.free 0) ∧
      (pathFS.addrs (NDIRECT + 1) ≠ 0 →
        (bmap 1024 pathFS 523).2.addrs (NDIRECT + 1) = pathFS.addrs (NDIRECT + 1) ∧
        (pathFS.disk (pathFS.addrs (NDIRECT + 1))
            ((523 - NDIRECT - NINDIRECT 1024) / NINDIRECT 1024) ≠ 0 →
          (bmap 1024 pathFS 523).2.disk (pathFS.addrs (NDIRECT + 1))
              ((523 - NDIRECT - NINDIRECT 1024) / NINDIRECT 1024) =
            pathFS.disk (pathFS.addrs (NDIRECT + 1))
              ((523 - NDIRECT - NINDIRECT 1024) / NINDIRECT 1024) ∧
          (pathFS.disk (pathFS.disk (pathFS.addrs (NDIRECT + 1))
              ((523 - NDIRECT - NINDIRECT 1024) / NINDIRECT 1024))
              ((523 - NDIRECT - NINDIRECT 1024) % NINDIRECT 1024) ≠ 0 →
            r = pathFS.disk (pathFS.disk (pathFS.addrs (NDIRECT + 1))
              ((523 - NDIRECT - NINDIRECT 1024) / NINDIRECT 1024))
              ((523 - NDIRECT - NINDIRECT 1024) % NINDIRECT 1024)))) :=
  ⟨⟨by decide, by decide, pathFS_fresh _, by decide, by decide, by decide⟩, by decide,
    bmap_double_path 1024 pathFS 523 (by decide) (by decide) (pathFS_fresh _)
      (fun _ k _ => by
        have e : pathFS.disk (pathFS.addrs (NDIRECT + 1))
            ((523 - NDIRECT - NINDIRECT 1024) / NINDIRECT 1024) = 60 := by decide
        rw [e]
        simp only [pathFS]
        omega)⟩

/-- C6. A logical index at or beyond `MAXFILE = NDIRECT + NINDIRECT + NINDIRECT * NINDIRECT`
(with `NDIRECT = 11`) takes none of the three branches of `bmap`: no block number
is returned and the state (inode, pointer blocks, allocator) is the one before the call. -/
theorem bmap_out_of_range (BSIZE : Nat) (s : FS) (bn : Nat) (h : MAXFILE BSIZE ≤ bn) :
    bmap BSIZE s bn = (none, s) ∧
      MAXFILE BSIZE = 11 + NINDIRECT BSIZE + NINDIRECT BSIZE * NINDIRECT BSIZE := by
  unfold MAXFILE NDINDIRECT at h
  have h3 : ¬ bn < NDIRECT := by omega
  have h4 : ¬ bn - NDIRECT < NINDIRECT BSIZE := by omega
  have h5 : ¬ bn - NDIRECT - NINDIRECT BSIZE < NDINDIRECT BSIZE := by
    unfold NDINDIRECT; omega
  exact ⟨by simp [bmap, h3, h4, h5], rfl⟩

/-- Witness for C6: index `MAXFILE` itself with 1024-byte blocks. -/
theorem bmap_out_of_range_witness :
    MAXFILE 1024 ≤ 65803 ∧ (bmap 1024 (emptyFS 100) 65803 = (none, emptyFS 100) ∧
      MAXFILE 1024 = 11 + NINDIRECT 1024 + NINDIRECT 1024 * NINDIRECT 1024) :=
  ⟨by decide, bmap_out_of_range 1024 (emptyFS 100) 65803 (by decide)⟩

/-- C5. For `bn` in the single-indirect range, under the allocator contract:
`bmap(ip, bn)` returns a non-zero `r`, which after the call is entry
`bn - NDIRECT` of the block in the non-zero slot `addrs[NDIRECT]`.  A zero slot
and a zero entry are filled with the next blocks of the allocator; a non-zero
slot is kept, and with a non-zero entry as well nothing is allocated and the
state is unchanged.  No other slot of the address table changes (no direct
slot, not `addrs[NDIRECT+1]`), and every other entry of the single-indirect
block is what it was (zero when the block is new). -/
theorem bmap_single_spec (BSIZE : Nat) (s : FS) (bn : Nat) (h1 : NDIRECT ≤ bn)
    (h2 : bn < NDIRECT + NINDIRECT BSIZE) (hfresh : FreshAlloc s 2) :
    ∃ r, (bmap BSIZE s bn).1 = some r ∧ r ≠ 0 ∧
      (bmap BSIZE s bn).2.addrs NDIRECT ≠ 0 ∧
      r = (bmap BSIZE s bn).2.disk ((bmap BSIZE s bn).2.addrs NDIRECT) (bn - NDIRECT) ∧
      (s.addrs NDIRECT = 0 →
        (bmap BSIZE s bn).2.addrs NDIRECT = s.free 0 ∧ r = s.free 1) ∧
      (s.addrs NDIRECT ≠ 0 → s.disk (s.addrs NDIRECT) (bn - NDIRECT) = 0 → r = s.free 0) ∧
      (s.addrs NDIRECT ≠ 0 → (bmap BSIZE s bn).2.addrs NDIRECT = s.addrs NDIRECT) ∧
      (s.addrs NDIRECT ≠ 0 → s.disk (s.addrs NDIRECT) (bn - NDIRECT) ≠ 0 →
        bmap BSIZE s bn = (some (s.disk (s.addrs NDIRECT) (bn - NDIRECT)), s)) ∧
      (∀ i, i ≠ NDIRECT → (bmap BSIZE s bn).2.addrs i = s.addrs i) ∧
      (∀ j, j ≠ bn - NDIRECT →
        (bmap BSIZE s bn).2.disk ((bmap BSIZE s bn).2.addrs NDIRECT) j =
          if s.addrs NDIRECT = 0 then 0 else s.disk (s.addrs NDIRECT) j) := by
  obtain ⟨hnz, hslot, hframe, hfr, _⟩ := addrOrAlloc_spec s NDIRECT 1 (by omega) hfresh
  have ha := wordOrAlloc_addrs (addrOrAlloc s NDIRECT).2 (addrOrAlloc s NDIRECT).1 (bn - NDIRECT)
  have hd := wordOrAlloc_disk_self (addrOrAlloc s NDIRECT).2 (addrOrAlloc s NDIRECT).1
    (bn - NDIRECT)
  have hr := wordOrAlloc_fst_ne (addrOrAlloc s NDIRECT).2 (addrOrAlloc s NDIRECT).1
    (bn - NDIRECT) (hfr 0 (by omega)).1
  rw [bmap_single _ s _ h1 h2]
  dsimp only
  refine ⟨_, rfl, hr, by rw [ha, hslot]; exact hnz, by rw [ha, hslot, hd], ?_, ?_, ?_, ?_, ?_, ?_⟩
  · intro h
    rw [ha, hslot, addrOrAlloc_of_eq s _ h]
    dsimp only
    refine ⟨rfl, ?_⟩
    rw [wordOrAlloc_of_eq _ _ _ (by simp [setAddr, balloc])]
    simp [setAddr, balloc]
  · intro h hz
    rw [addrOrAlloc_of_ne s _ h]
    dsimp only
    rw [wordOrAlloc_of_eq _ _ _ hz]
  · intro h
    rw [ha, hslot, addrOrAlloc_of_ne s _ h]
  · intro h hne
    rw [addrOrAlloc_of_ne s _ h]
    dsimp only
    rw [wordOrAlloc_of_ne _ _ _ hne]
  · intro i hi
    rw [ha]; exact hframe i hi
  · intro j hj
    rw [ha, hslot]
    rw [wordOrAlloc_disk_other _ _ _ _ _ (hfr 0 (by omega)).2 (Or.inr hj)]
    by_cases h : s.addrs NDIRECT = 0
    · rw [if_pos h]; exact addrOrAlloc_disk_new s NDIRECT j h
    · rw [if_neg h, addrOrAlloc_of_ne s _ h]

/-- Witness for C5: block 11 of an inode whose single-indirect block 40 holds
the leaf 41 at entry 0: the slot and the entry are kept, 41 is returned and
nothing is allocated.  On the empty inode the same call allocates the blocks
100 and 101. -/
theorem bmap_single_spec_witness :
    (NDIRECT ≤ 11 ∧ 11 < NDIRECT + NINDIRECT 1024 ∧ FreshAlloc singleFS 2 ∧
      singleFS.addrs NDIRECT = 40 ∧ singleFS.disk 40 (11 - NDIRECT) = 41) ∧
    ((bmap 1024 singleFS 11).1 = some 41 ∧ (bmap 1024 (emptyFS 100) 11).1 = some 101 ∧
      (bmap 1024 (emptyFS 100) 11).2.addrs NDIRECT = 100) ∧
    ∃ r, (bmap 1024 singleFS 11).1 = some r ∧ r ≠ 0 ∧
      (bmap 1024 singleFS 11).2.addrs NDIRECT ≠ 0 ∧
      r = (bmap 1024 singleFS 11).2.disk ((bmap 1024 singleFS 11).2.addrs NDIRECT)
        (11 - NDIRECT) ∧
      (singleFS.addrs NDIRECT = 0 →
        (bmap 1024 singleFS 11).2.addrs NDIRECT = singleFS.free 0 ∧ r = singleFS.free 1) ∧
      (singleFS.addrs NDIRECT ≠ 0 → singleFS.disk (singleFS.addrs NDIRECT) (11 - NDIRECT) = 0 →
        r = singleFS.free 0) ∧
      (singleFS.addrs NDIRECT ≠ 0 →
        (bmap 1024 singleFS 11).2.addrs NDIRECT = singleFS.addrs NDIRECT) ∧
      (singleFS.addrs NDIRECT ≠ 0 →
        singleFS.disk (singleFS.addrs NDIRECT) (11 - NDIRECT) ≠ 0 →
        bmap 1024 singleFS 11 =
          (some (singleFS.disk (singleFS.addrs NDIRECT) (11 - NDIRECT)), singleFS)) ∧
      (∀ i, i ≠ NDIRECT → (bmap 1024 singleFS 11).2.addrs i = singleFS.addrs i) ∧
      (∀ j, j ≠ 11 - NDIRECT →
        (bmap 1024 singleFS 11).2.disk ((bmap 1024 singleFS 11).2.addrs NDIRECT) j =
          if singleFS.addrs NDIRECT = 0 then 0
          else singleFS.disk (singleFS.addrs NDIRECT) j) :=
  ⟨⟨by decide, by decide, singleFS_fresh 2, by decide, by decide⟩,
    ⟨by decide, by decide, by decide⟩,
    bmap_single_spec 1024 singleFS 11 (by decide) (by decide) (singleFS_fresh 2)⟩

/-- C3. For `bn = NDIRECT + NINDIRECT` on an inode whose double-indirect block is
not allocated or is empty, under the allocator contract: `bmap` allocates one
first-level entry, at index 0, and one leaf, at index 0 of that second-level
block (besides the double-indirect block when the slot was zero); every other
entry of the first-level table is zero afterwards, and so is every other entry
of the second-level block. -/
theorem bmap_first_double_block (BSIZE : Nat) (s : FS) (hN : 0 < NINDIRECT BSIZE)
    (hfresh : FreshAlloc s 3)
    (hempty : s.addrs (NDIRECT + 1) ≠ 0 →
      ∀ i, i < NINDIRECT BSIZE → s.disk (s.addrs (NDIRECT + 1)) i = 0) :
    (bmap BSIZE s (NDIRECT + NINDIRECT BSIZE)).1 = some (s.free (slotAllocs s + 1)) ∧
    (bmap BSIZE s (NDIRECT + NINDIRECT BSIZE)).2.addrs (NDIRECT + 1) =
      (if s.addrs (NDIRECT + 1) = 0 then s.free 0 else s.addrs (NDIRECT + 1)) ∧
    (bmap BSIZE s (NDIRECT + NINDIRECT BSIZE)).2.addrs (NDIRECT + 1) ≠ 0 ∧
    (bmap BSIZE s (NDIRECT + NINDIRECT BSIZE)).2.disk
      ((bmap BSIZE s (NDIRECT + NINDIRECT BSIZE)).2.addrs (NDIRECT + 1)) 0
        = s.free (slotAllocs s) ∧
    s.free (slotAllocs s) ≠ 0 ∧
    (∀ i, 0 < i → i < NINDIRECT BSIZE →
      (bmap BSIZE s (NDIRECT + NINDIRECT BSIZE)).2.disk
        ((bmap BSIZE s (NDIRECT + NINDIRECT BSIZE)).2.addrs (NDIRECT + 1)) i = 0) ∧
    (bmap BSIZE s (NDIRECT + NINDIRECT BSIZE)).2.disk (s.free (slotAllocs s)) 0
      = s.free (slotAllocs s + 1) ∧
    s.free (slotAllocs s + 1) ≠ 0 ∧
    (∀ j, 0 < j →
      (bmap BSIZE s (NDIRECT + NINDIRECT BSIZE)).2.disk (s.free (slotAllocs s)) j = 0) ∧
    (∀ k, (bmap BSIZE s (NDIRECT + NINDIRECT BSIZE)).2.free k = s.free (k + (slotAllocs s + 2))) := by
  have hhi : NDIRECT + NINDIRECT BSIZE < MAXFILE BSIZE := by
    unfold MAXFILE NDINDIRECT
    have := Nat.mul_pos hN hN
    omega
  have f0 := hfresh 0 (by omega)
  have f1 := hfresh 1 (by omega)
  have f2 := hfresh 2 (by omega)
  have d01 : s.free 0 ≠ s.free 1 := f1.2.2 0 (by omega)
  have d02 : s.free 0 ≠ s.free 2 := f2.2.2 0 (by omega)
  have d12 : s.free 1 ≠ s.free 2 := f2.2.2 1 (by omega)
  rw [bmap_double _ s _ (le_refl _) hhi]
  simp only [Nat.sub_self, Nat.add_sub_cancel_left, Nat.zero_div, Nat.zero_mod, descend,
    fillFirstLevel]
  by_cases h : s.addrs (NDIRECT + 1) = 0
  · have e1 := addrOrAlloc_of_eq s _ h
    simp only [slotAllocs, h, if_true, e1]
    have e2 : wordOrAlloc (setAddr (balloc s).2 (NDIRECT + 1) (s.free 0)) (s.free 0) 0 =
        (s.free 1, setWord (balloc (setAddr (balloc s).2 (NDIRECT + 1) (s.free 0))).2
          (s.free 0) 0 (s.free 1)) := by
      rw [wordOrAlloc_of_eq _ _ _ (by simp [setAddr, balloc])]
      simp [setAddr, balloc]
    rw [e2]
    dsimp only
    have e3 : wordOrAlloc (setWord (balloc (setAddr (balloc s).2 (NDIRECT + 1) (s.free 0))).2
          (s.free 0) 0 (s.free 1)) (s.free 1) 0 =
        (s.free 2, setWord (balloc (setWord (balloc (setAddr (balloc s).2 (NDIRECT + 1)
          (s.free 0))).2 (s.free 0) 0 (s.free 1))).2 (s.free 1) 0 (s.free 2)) := by
      rw [wordOrAlloc_of_eq _ _ _ (by simp [setWord, setAddr, balloc, Ne.symm d01])]
      simp [setWord, setAddr, balloc]
    rw [e3]
    dsimp only
    refine ⟨rfl, by simp [setWord, setAddr, balloc], by simpa [setWord, setAddr, balloc] using f0.1,
      by simp [setWord, setAddr, balloc, d01, d02], f1.1, ?_, by simp [setWord, setAddr, balloc],
      f2.1, ?_, ?_⟩
    · intro i hi _
      have : i ≠ 0 := by omega
      simp [setWord, setAddr, balloc, d01, d02, this]
    · intro j hj
      have : j ≠ 0 := by omega
      simp [setWord, setAddr, balloc, this, d12, Ne.symm d01]
    · intro k
      simp [setWord, setAddr, balloc]
  · have e1 := addrOrAlloc_of_ne s _ h
    have hz := hempty h
    have a0 : s.free 0 ≠ s.addrs (NDIRECT + 1) := f0.2.1 _ (by omega)
    have a1 : s.free 1 ≠ s.addrs (NDIRECT + 1) := f1.2.1 _ (by omega)
    simp only [slotAllocs, h, if_false, e1]
    have e2 : wordOrAlloc s (s.addrs (NDIRECT + 1)) 0 =
        (s.free 0, setWord (balloc s).2 (s.addrs (NDIRECT + 1)) 0 (s.free 0)) :=
      wordOrAlloc_of_eq _ _ _ (hz 0 hN)
    rw [e2]
    dsimp only
    have e3 : wordOrAlloc (setWord (balloc s).2 (s.addrs (NDIRECT + 1)) 0 (s.free 0))
        (s.free 0) 0 =
        (s.free 1, setWord (balloc (setWord (balloc s).2 (s.addrs (NDIRECT + 1)) 0
          (s.free 0))).2 (s.free 0) 0 (s.free 1)) := by
      rw [wordOrAlloc_of_eq _ _ _ (by simp [setWord, balloc, a0])]
      simp [setWord, balloc]
    rw [e3]
    dsimp only
    refine ⟨rfl, by simp [setWord, balloc], by simpa [setWord, balloc] using h,
      by simp [setWord, balloc, Ne.symm a0, Ne.symm a1], f0.1, ?_,
      by simp [setWord, balloc], f1.1, ?_, ?_⟩
    · intro i hi hiN
      have : i ≠ 0 := by omega
      simp [setWord, balloc, Ne.symm a0, Ne.symm a1, this]
      exact hz i hiN
    · intro j hj
      have : j ≠ 0 := by omega
      simp [setWord, balloc, this, d01, a0]
    · intro k
      simp [setWord, balloc]

/-- Witness for C3: an empty inode with 1024-byte blocks. -/
theorem bmap_first_double_block_witness :
    (0 < NINDIRECT 1024 ∧ FreshAlloc (emptyFS 100) 3) ∧
    (bmap 1024 (emptyFS 100) (NDIRECT + NINDIRECT 1024)).1 = some 102 ∧
    (bmap 1024 (emptyFS 100) (NDIRECT + NINDIRECT 1024)).2.disk 100 0 = 101 ∧
    (bmap 1024 (emptyFS 100) (NDIRECT + NINDIRECT 1024)).2.disk 101 0 = 102 :=
  ⟨⟨by decide, emptyFS_fresh 100 3 (by decide)⟩,
    (bmap_first_double_block 1024 (emptyFS 100) (by decide) (emptyFS_fresh 100 3 (by decide))
      (fun h => absurd rfl h)).1,
    by decide, by decide⟩

/-! ## itrunc -/

theorem freeDirect_spec (s : FS) (n : Nat) :
    (freeDirect n s).addrs = (fun i => if i < n then 0 else s.addrs i) ∧
    (freeDirect n s).freed = s.freed ++ ((List.range n).map s.addrs).filter (fun b => b ≠ 0) ∧
    (freeDirect n s).disk = s.disk ∧ (freeDirect n s).free = s.free := by
  induction n with
  | zero => simp [freeDirect]
  | succ n ih =>
    obtain ⟨ha, hf, hd, hfr⟩ := ih
    have hn : (freeDirect n s).addrs n = s.addrs n := by rw [ha]; simp
    simp only [freeDirect, hn]
    by_cases h : s.addrs n = 0
    · simp only [h, ne_eq, not_true_eq_false, if_false]
      refine ⟨?_, ?_, hd, hfr⟩
      · rw [ha]; funext i
        by_cases h1 : i < n
        · simp [h1, Nat.lt_succ_of_lt h1]
        · by_cases h2 : i = n
          · subst h2; simp [h]
          · have : ¬ i < n + 1 := by omega
            simp [h1, this]
      · rw [hf, List.range_succ]
        simp [List.filter_append, h]
    · simp only [h, ne_eq, not_false_eq_true, if_true]
      refine ⟨?_, ?_, by simpa [setAddr, bfree] using hd, by simpa [setAddr, bfree] using hfr⟩
      · simp only [setAddr, bfree, ha]; funext i
        by_cases h2 : i = n
        · subst h2; simp
        · by_cases h1 : i < n
          · simp [h1, h2, Nat.lt_succ_of_lt h1]
          · have : ¬ i < n + 1 := by omega
            simp [h1, h2, this]
      · simp only [setAddr, bfree, hf]
        rw [List.range_succ]
        simp [List.filter_append, h]

theorem freeLeaves_spec (s : FS) (blk n : Nat) :
    freeLeaves blk n s = { s with freed := s.freed ++ leavesOf s blk n } := by
  induction n with
  | zero => simp [freeLeaves, leavesOf]
  | succ n ih =>
    simp only [freeLeaves, ih]
    by_cases h : s.disk blk n = 0
    · simp [h, leavesOf, List.range_succ, List.filter_append]
    · simp [h, leavesOf, List.range_succ, List.filter_append, bfree]

theorem freeSingle_addrs (BSIZE : Nat) (s : FS) :
    (freeSingle BSIZE s).addrs = (fun i => if i = NDIRECT then 0 else s.addrs i) := by
  unfold freeSingle
  by_cases h : s.addrs NDIRECT = 0
  · simp only [h, ne_eq, not_true_eq_false, if_false]
    funext i
    by_cases h2 : i = NDIRECT
    · subst h2; simp [h]
    · simp [h2]
  · simp [h, freeLeaves_spec, setAddr, bfree]

theorem freeSingle_freed (BSIZE : Nat) (s : FS) :
    (freeSingle BSIZE s).freed = s.freed ++ singleBlocks BSIZE s := by
  unfold freeSingle singleBlocks
  by_cases h : s.addrs NDIRECT = 0
  · simp [h]
  · simp [h, freeLeaves_spec, setAddr, bfree]

/-- The guard of the double-indirect tier is false after the single-indirect tier. -/
theorem freeDouble_after_single (BSIZE : Nat) (s : FS) :
    freeDouble BSIZE (freeSingle BSIZE s) = freeSingle BSIZE s := by
  have h : (freeSingle BSIZE s).addrs NDIRECT = 0 := by
    rw [freeSingle_addrs]; simp
  simp [freeDouble, h]

theorem itrunc_addrs (BSIZE : Nat) (s : FS) (i : Nat) :
    (itrunc BSIZE s).addrs i = if i ≤ NDIRECT then 0 else s.addrs i := by
  simp only [itrunc, freeDouble_after_single, freeSingle_addrs, (freeDirect_spec s NDIRECT).1]
  by_cases h1 : i = NDIRECT
  · simp [h1]
  · by_cases h2 : i < NDIRECT
    · simp [h1, h2, Nat.le_of_lt h2]
    · have : ¬ i ≤ NDIRECT := by omega
      simp [h1, h2, this]

/-- C7 at the failing input: an inode whose double-indirect slot holds block
50.  After `itrunc` the size is 0 and the slots `0..NDIRECT` are zero, but the
slot `addrs[NDIRECT+1]` still holds 50 and nothing has been freed. -/
theorem itrunc_keeps_double_slot :
    (itrunc 1024 dindFS).size = 0 ∧
    (∀ i, i ≤ NDIRECT → (itrunc 1024 dindFS).addrs i = 0) ∧
    (itrunc 1024 dindFS).addrs (NDIRECT + 1) = 50 ∧
    (itrunc 1024 dindFS).freed = [] := by
  refine ⟨rfl, fun i hi => ?_, ?_, by decide⟩
  · rw [itrunc_addrs]; simp [hi]
  · rw [itrunc_addrs]; decide

set_option maxRecDepth 100000 in
/-- C8 at the failing input: with 8-byte blocks (`MAXFILE = 17`) a file is
filled through `bmap` up to logical block `MAXFILE - 1` from an allocator
handing out 100, 101, ..  Its 21 reachable blocks are non-zero and distinct;
`itrunc` frees the 14 blocks of the direct and single-indirect tiers and none
of the 7 blocks of the double-indirect tier. -/
theorem itrunc_leaks_double_tier :
    MAXFILE 8 = 17 ∧
    reachable 8 (fillFile 8 17 (emptyFS 100)) =
      [100, 101, 102, 103, 104, 105, 106, 107, 108, 109, 110, 112, 113, 111,
        116, 117, 115, 119, 120, 118, 114] ∧
    (itrunc 8 (fillFile 8 17 (emptyFS 100))).freed =
      [100, 101, 102, 103, 104, 105, 106, 107, 108, 109, 110, 112, 113, 111] ∧
    (itrunc 8 (fillFile 8 17 (emptyFS 100))).addrs (NDIRECT + 1) = 114 := by
  decide

/-- C9. For every inode state the calls `itrunc` makes to `bfree` are, in
order: the non-zero direct entries, one call each in slot order, and, when
`addrs[NDIRECT]` is non-zero, the non-zero entries of the single-indirect block,
one call each, and then the single-indirect block itself; no call has block
number 0. -/
theorem itrunc_frees_direct_and_single (BSIZE : Nat) (s : FS) :
    (itrunc BSIZE s).freed = s.freed ++ (directBlocks s ++ singleBlocks BSIZE s) ∧
    directBlocks s = ((List.range NDIRECT).map s.addrs).filter (fun b => b ≠ 0) ∧
    singleBlocks BSIZE s =
      (if s.addrs NDIRECT ≠ 0 then
        ((List.range (NINDIRECT BSIZE)).map (s.disk (s.addrs NDIRECT))).filter (fun b => b ≠ 0)
          ++ [s.addrs NDIRECT]
      else []) ∧
    0 ∉ directBlocks s ++ singleBlocks BSIZE s := by
  obtain ⟨ha, hf, hd, _⟩ := freeDirect_spec s NDIRECT
  refine ⟨?_, rfl, rfl, ?_⟩
  · simp only [itrunc, freeDouble_after_single, freeSingle_freed, hf]
    have h1 : singleBlocks BSIZE (freeDirect NDIRECT s) = singleBlocks BSIZE s := by
      simp [singleBlocks, leavesOf, ha, hd]
    rw [h1, List.append_assoc]
    rfl
  · intro h
    rcases List.mem_append.mp h with h | h
    · simp [directBlocks] at h
    · unfold singleBlocks at h
      split at h
      · rename_i hne
        simp [leavesOf] at h
        exact hne h.symm
      · simp at h

/-- C10 at the failing input: a chain of exactly 10 well-formed symbolic links,
inode 0 the first link and inode 10 the regular file at its end.  The loop
follows the 10 links and leaves with the file and `count = 10`; the check after
the loop then makes `open` return -1.  With 9 links the file is opened. -/
theorem open_chain_of_ten_fails :
    (∀ j, j < 10 → (chainFS 10).type j = IType.T_SYMLINK ∧
      followStep 128 (chainFS 10) j = some (j + 1)) ∧
    (chainFS 10).type 10 = IType.T_FILE ∧
    followLinks 128 (chainFS 10) 10 0 0 = some (10, 10) ∧
    resolveSymlink 128 (chainFS 10) 0 false = none ∧
    sys_open 128 10 (chainFS 10) none (some 3) [1]
      { create := false, nofollow := false, rdonly := true } = none ∧
    sys_open 128 10 (chainFS 9) none (some 3) [1]
      { create := false, nofollow := false, rdonly := true } = some (3, 9) := by
  decide

/-! ## Symbolic links -/

theorem followStep_eq (MAXPATH : Nat) (fs : Names) (ip : Nat) :
    followStep MAXPATH fs ip = (followStepE MAXPATH fs ip).toOption := by
  unfold followStep followStepE
  dsimp only
  split
  · rfl
  · split
    · rfl
    · split
      · rfl
      · split <;> simp_all [StepRes.toOption]

theorem followLinks_chain (MAXPATH : Nat) (fs : Names) (c : Nat → Nat)
    (hty : ∀ j, j ≤ 10 → fs.type (c j) = IType.T_SYMLINK)
    (hstep : ∀ j, j < 10 → followStep MAXPATH fs (c j) = some (c (j + 1)))
    (fuel k : Nat) (hk : k ≤ 10) (hf : 10 - k ≤ fuel) :
    followLinks MAXPATH fs fuel (c k) k = some (c 10, 10) := by
  induction fuel generalizing k with
  | zero =>
    have : k = 10 := by omega
    subst this
    rfl
  | succ fuel ih =>
    unfold followLinks
    by_cases h : k < 10
    · rw [if_pos ⟨hty k hk, h⟩, hstep k h]
      exact ih (k + 1) (by omega) (by omega)
    · have : k = 10 := by omega
      subst this
      simp

/-- C11. When the opened inode is a symbolic link and following links yields
a symbolic link after each of the first 10 hops (a longer chain, or a cycle),
`open` without `O_NOFOLLOW` returns -1: the loop leaves after exactly 10 rounds,
with `count = 10` and the inode reached by the tenth hop, whatever bound of at
least 10 rounds is given to the loop, so no eleventh lookup is made. -/
theorem open_long_chain_rejected (MAXPATH NDEV : Nat) (fs : Names) (created fd : Option Nat)
    (path : List Nat) (m : OMode) (c : Nat → Nat)
    (hm : m.create = false) (hnf : m.nofollow = false)
    (h0 : fs.namei path = some (c 0))
    (hty : ∀ j, j ≤ 10 → fs.type (c j) = IType.T_SYMLINK)
    (hstep : ∀ j, j < 10 → followStep MAXPATH fs (c j) = some (c (j + 1))) :
    (∀ fuel, 10 ≤ fuel → followLinks MAXPATH fs fuel (c 0) 0 = some (c 10, 10)) ∧
    resolveSymlink MAXPATH fs (c 0) false = none ∧
    sys_open MAXPATH NDEV fs created fd path m = none := by
  have hl := followLinks_chain MAXPATH fs c hty hstep
  have hr : resolveSymlink MAXPATH fs (c 0) false = none := by
    unfold resolveSymlink
    rw [if_pos ⟨hty 0 (by omega), rfl⟩, hl 10 0 (by omega) (by omega)]
    simp
  refine ⟨fun fuel hfu => hl fuel 0 (by omega) (by omega), hr, ?_⟩
  simp [sys_open, hm, h0, hnf, hr]

/-- Witness for C11: a chain of 11 links opened at its first link. -/
theorem open_long_chain_rejected_witness :
    ((chainFS 11).namei [1] = some 0 ∧
      (∀ j, j ≤ 10 → (chainFS 11).type j = IType.T_SYMLINK) ∧
      (∀ j, j < 10 → followStep 128 (chainFS 11) j = some (j + 1))) ∧
    ((∀ fuel, 10 ≤ fuel → followLinks 128 (chainFS 11) fuel 0 0 = some (10, 10)) ∧
      resolveSymlink 128 (chainFS 11) 0 false = none ∧
      sys_open 128 10 (chainFS 11) none (some 3) [1]
        { create := false, nofollow := false, rdonly := true } = none) :=
  ⟨⟨by decide, by decide, by decide⟩,
    open_long_chain_rejected 128 10 (chainFS 11) none (some 3) [1]
      { create := false, nofollow := false, rdonly := true } (fun j => j) rfl rfl
      (by decide) (by decide) (by decide)⟩

theorem step_corrupt_iff_aux (MAXPATH : Nat) (fs : Names) (ip : Nat)
    (hread : (readi fs ip 0 4).length = 4) :
    followStepE MAXPATH fs ip = StepRes.fail StepErr.corrupt ↔
      (decodeInt (readi fs ip 0 4) ≤ 0 ∨ decodeInt (readi fs ip 0 4) > (MAXPATH : Int)) := by
  unfold followStepE
  dsimp only
  rw [if_neg (by simp [hread])]
  by_cases hc : lenCorrupt MAXPATH (decodeInt (readi fs ip 0 4)) = true
  · rw [if_pos hc]
    simp only [true_iff]
    simpa [lenCorrupt] using hc
  · rw [if_neg hc]
    have hc1 : ¬ (decodeInt (readi fs ip 0 4) ≤ 0 ∨
        decodeInt (readi fs ip 0 4) > (MAXPATH : Int)) := by
      simpa [lenCorrupt] using hc
    constructor
    · intro h
      exfalso
      split at h
      · cases h
      · split at h <;> cases h
    · intro h
      exact absurd h hc1

/-- C12. In a round whose 4-byte length read succeeds with decoded value `len`,
the round ends in the corruption error if and only if `len <= 0` or
`len > MAXPATH`; the round then returns -1 before any lookup (`namei` is only
called in a round that ends in `next` or `notFound`), the loop returns -1, and
`open` on such a link returns -1. -/
theorem step_corrupt_iff (MAXPATH : Nat) (fs : Names) (ip : Nat)
    (hread : (readi fs ip 0 4).length = 4) :
    (followStepE MAXPATH fs ip = StepRes.fail StepErr.corrupt ↔
      (decodeInt (readi fs ip 0 4) ≤ 0 ∨ decodeInt (readi fs ip 0 4) > (MAXPATH : Int))) ∧
    (followStepE MAXPATH fs ip = StepRes.fail StepErr.corrupt →
      followStep MAXPATH fs ip = none ∧
      (∀ fuel count, fs.type ip = IType.T_SYMLINK → count < 10 →
        followLinks MAXPATH fs (fuel + 1) ip count = none) ∧
      (∀ NDEV created fd path m, m.create = false → m.nofollow = false →
        fs.namei path = some ip → fs.type ip = IType.T_SYMLINK →
        sys_open MAXPATH NDEV fs created fd path m = none)) := by
  constructor
  · exact step_corrupt_iff_aux MAXPATH fs ip hread
  · intro h
    have hs : followStep MAXPATH fs ip = none := by
      rw [followStep_eq, h]; rfl
    have hl : ∀ fuel count, fs.type ip = IType.T_SYMLINK → count < 10 →
        followLinks MAXPATH fs (fuel + 1) ip count = none := by
      intro fuel count ht hcnt
      unfold followLinks
      rw [if_pos ⟨ht, hcnt⟩, hs]
    refine ⟨hs, hl, ?_⟩
    intro NDEV created fd path m hm hnf hp ht
    have hr : resolveSymlink MAXPATH fs ip false = none := by
      unfold resolveSymlink
      rw [if_pos ⟨ht, rfl⟩, hl 9 0 ht (by omega)]
    simp [sys_open, hm, hp, hnf, hr]

/-- Witness for C12: the link `symlink("", "/c")` creates, whose length read gives 0. -/
theorem step_corrupt_iff_witness :
    (readi emptyLinkFS 7 0 4).length = 4 ∧
    ((followStepE 128 emptyLinkFS 7 = StepRes.fail StepErr.corrupt ↔
      (decodeInt (readi emptyLinkFS 7 0 4) ≤ 0 ∨
        decodeInt (readi emptyLinkFS 7 0 4) > ((128 : Nat) : Int))) ∧
    (followStepE 128 emptyLinkFS 7 = StepRes.fail StepErr.corrupt →
      followStep 128 emptyLinkFS 7 = none ∧
      (∀ fuel count, emptyLinkFS.type 7 = IType.T_SYMLINK → count < 10 →
        followLinks 128 emptyLinkFS (fuel + 1) 7 count = none) ∧
      (∀ NDEV created fd path m, m.create = false → m.nofollow = false →
        emptyLinkFS.namei path = some 7 → emptyLinkFS.type 7 = IType.T_SYMLINK →
        sys_open 128 NDEV emptyLinkFS created fd path m = none))) :=
  ⟨by decide, step_corrupt_iff 128 emptyLinkFS 7 (by decide)⟩

theorem decode_encode (n : Nat) (h : n < 2147483648) :
    decodeInt (encodeInt (n : Int)) = (n : Int) := by
  have e : ((n : Int) % 4294967296).toNat = n := by omega
  simp only [decodeInt, encodeInt, e, List.getD_cons_zero, List.getD_cons_succ]
  have hu : n % 256 % 256 + 256 * (n / 256 % 256 % 256) + 65536 * (n / 65536 % 256 % 256)
      + 16777216 * (n / 16777216 % 256 % 256) = n := by omega
  rw [hu, if_pos h]

theorem encodeInt_length (v : Int) : (encodeInt v).length = 4 := by
  simp [encodeInt]

theorem cstr_terminated (t : List Nat) (h : ∀ b, b ∈ t → b ≠ 0) : cstr (t ++ [0]) = t := by
  induction t with
  | nil => simp [cstr]
  | cons a t ih =>
    have ha : a ≠ 0 := h a (by simp)
    have := ih (fun b hb => h b (by simp [hb]))
    simp only [cstr] at this ⊢
    simpa [List.takeWhile, ha] using this

theorem symlinkContent_step (MAXPATH : Nat) (fs : Names) (ip : Nat) (t : List Nat)
    (hM : MAXPATH ≤ 2147483648) (h1 : 1 ≤ t.length) (h2 : t.length < MAXPATH)
    (hz : ∀ b, b ∈ t → b ≠ 0) (hc : fs.content ip = symlinkContent t) :
    followStep MAXPATH fs ip = fs.namei t := by
  have hhdr : readi fs ip 0 4 = encodeInt (t.length : Int) := by
    simp [readi, hc, symlinkContent, List.take_append_eq_append_take, encodeInt_length]
  have hbody : readi fs ip 4 (t.length + 1) = t ++ [0] := by
    simp [readi, hc, symlinkContent, List.drop_append_eq_append_drop, encodeInt_length]
  have hdec : decodeInt (encodeInt (t.length : Int)) = (t.length : Int) :=
    decode_encode _ (by omega)
  have hnc : lenCorrupt MAXPATH (t.length : Int) = false := by
    unfold lenCorrupt
    rw [Bool.or_eq_false_iff]
    exact ⟨decide_eq_false (by omega), decide_eq_false (by omega)⟩
  unfold followStep
  simp only [hhdr, encodeInt_length, hdec, hnc, Int.toNat_ofNat, hbody]
  simp [cstr_terminated t hz]

theorem resolve_one_link (MAXPATH : Nat) (fs : Names) (ip : Nat) (t : List Nat)
    (hty : fs.type ip = IType.T_SYMLINK) (hstep : followStep MAXPATH fs ip = fs.namei t)
    (hns : ∀ j, fs.namei t = some j → fs.type j ≠ IType.T_SYMLINK) :
    resolveSymlink MAXPATH fs ip false = fs.namei t := by
  unfold resolveSymlink
  rw [if_pos ⟨hty, rfl⟩]
  have hl : followLinks MAXPATH fs 10 ip 0 = (fs.namei t).map (fun j => (j, 1)) := by
    show followLinks MAXPATH fs (9 + 1) ip 0 = _
    unfold followLinks
    rw [if_pos ⟨hty, by omega⟩, hstep]
    cases hn : fs.namei t with
    | none => rfl
    | some j =>
      have := hns j hn
      simp only [Option.map]
      show followLinks MAXPATH fs (8 + 1) j 1 = _
      unfold followLinks
      rw [if_neg (fun h => this h.1)]
  rw [hl]
  cases hn : fs.namei t with
  | none => rfl
  | some j => simp

/-- C13. For a target `t` without zero byte and with `1 <= strlen(t) < MAXPATH`,
after a successful `symlink(t, p)` creating inode `ip`: the content of `ip` is
the 4-byte length of `t`, then `t` and one terminator byte; one round of the
resolution loop on `ip` looks up exactly `t`; and, when `t` does not name a
symbolic link, resolution ends with the inode `t` names and `open(p)` without
`O_NOFOLLOW` has the result of `open(t)`. -/
theorem symlink_round_trip (MAXPATH NDEV : Nat) (fs fs1 : Names) (ip : Nat) (t p : List Nat)
    (created fd : Option Nat) (m : OMode)
    (hM : MAXPATH ≤ 2147483648) (h1 : 1 ≤ t.length) (h2 : t.length < MAXPATH)
    (hz : ∀ b, b ∈ t → b ≠ 0)
    (hs : sys_symlink MAXPATH fs (some ip) t p = some fs1)
    (hns : ∀ j, fs1.namei t = some j → fs1.type j ≠ IType.T_SYMLINK)
    (hm : m.create = false) (hnf : m.nofollow = false) :
    fs1.content ip = symlinkContent t ∧ fs1.namei p = some ip ∧
    fs1.type ip = IType.T_SYMLINK ∧
    followStep MAXPATH fs1 ip = fs1.namei t ∧
    resolveSymlink MAXPATH fs1 ip false = fs1.namei t ∧
    sys_open MAXPATH NDEV fs1 created fd p m = sys_open MAXPATH NDEV fs1 created fd t m := by
  unfold sys_symlink at hs
  split at hs
  · cases hs
  · simp only [Option.some.injEq] at hs
    have hc : fs1.content ip = symlinkContent t := by
      rw [← hs]
      have e1 : List.take 4 (encodeInt (t.length : Int)) = encodeInt (t.length : Int) :=
        List.take_of_length_le (by rw [encodeInt_length])
      have e2 : List.drop (4 + (t ++ [0]).length) (encodeInt (t.length : Int)) = [] :=
        List.drop_of_length_le (by rw [encodeInt_length]; omega)
      simp only [writei, symlinkContent, if_true, List.take_zero, List.nil_append,
        List.drop_nil, List.append_nil, e1, e2, List.append_assoc]
    have hp : fs1.namei p = some ip := by rw [← hs]; simp
    have hty : fs1.type ip = IType.T_SYMLINK := by rw [← hs]; simp
    have hstep := symlinkContent_step MAXPATH fs1 ip t hM h1 h2 hz hc
    have hres := resolve_one_link MAXPATH fs1 ip t hty hstep hns
    refine ⟨hc, hp, hty, hstep, hres, ?_⟩
    unfold sys_open
    simp only [hm, hp, hnf, hres, Bool.false_eq_true, if_false]
    cases hn : fs1.namei t with
    | none => rfl
    | some j =>
      have hj : resolveSymlink MAXPATH fs1 j false = some j := by
        unfold resolveSymlink
        rw [if_neg (fun h => hns j hn h.1)]
      simp only [hj]

/-- Witness for C13: `symlink("/a/b", "/c")` creating inode 7 where "/a/b" is
the regular file inode 5; opening "/c" gives inode 5. -/
theorem symlink_round_trip_witness :
    (sys_symlink 128 abFS (some 7) [47, 97, 47, 98] [47, 99]).isSome = true ∧
    (∀ fs1, sys_symlink 128 abFS (some 7) [47, 97, 47, 98] [47, 99] = some fs1 →
      (fs1.content 7 = symlinkContent [47, 97, 47, 98] ∧ fs1.namei [47, 99] = some 7 ∧
        fs1.type 7 = IType.T_SYMLINK ∧
        followStep 128 fs1 7 = fs1.namei [47, 97, 47, 98] ∧
        resolveSymlink 128 fs1 7 false = fs1.namei [47, 97, 47, 98] ∧
        sys_open 128 10 fs1 none (some 3) [47, 99]
            { create := false, nofollow := false, rdonly := true } =
          sys_open 128 10 fs1 none (some 3) [47, 97, 47, 98]
            { create := false, nofollow := false, rdonly := true }) ∧
      sys_open 128 10 fs1 none (some 3) [47, 99]
        { create := false, nofollow := false, rdonly := true } = some (3, 5)) :=
  ⟨by decide, fun fs1 hs =>
    ⟨symlink_round_trip 128 10 abFS fs1 7 [47, 97, 47, 98] [47, 99] none (some 3)
      { create := false, nofollow := false, rdonly := true } (by decide) (by decide) (by decide)
      (by decide) hs
      (by
        intro j hj
        have hs1 : some fs1 = sys_symlink 128 abFS (some 7) [47, 97, 47, 98] [47, 99] := hs.symm
        simp only [sys_symlink] at hs1
        cases hs1
        simp only [abFS] at hj ⊢
        simp at hj
        subst hj
        decide) rfl rfl,
    by
      have hs1 : some fs1 = sys_symlink 128 abFS (some 7) [47, 97, 47, 98] [47, 99] := hs.symm
      simp only [sys_symlink] at hs1
      cases hs1
      decide⟩⟩

/-! ## sys_unlink -/

/-- C14. When the named entry is a symbolic link with link count at least 1 (in
a parent that is a directory), `unlink` returns 0; in the state it leaves,
that directory entry is zeroed and every other entry is unchanged, the link
count of the link is one less, and the link count of the parent and of every
other inode, the one the target of the link resolves to included, is unchanged. -/
theorem unlink_symlink_only_link (lk : Lookup) (s : Dirs) (path name : List Nat)
    (dp ip off : Nat)
    (hp : lk.nameiparent path = some (dp, name))
    (hdot : name ≠ [46] ∧ name ≠ [46, 46])
    (hl : lk.dirlookup dp name = some (ip, off))
    (hdir : s.type dp = IType.T_DIR)
    (hty : s.type ip = IType.T_SYMLINK) (hn : 1 ≤ s.nlink ip) :
    ∃ s1, sys_unlink lk s path = UnlinkResult.ret 0 s1 ∧
      s1.entry dp off = { inum := 0, name := [] } ∧
      (∀ d o, ¬ (d = dp ∧ o = off) → s1.entry d o = s.entry d o) ∧
      s1.nlink ip = s.nlink ip - 1 ∧
      s1.nlink dp = s.nlink dp ∧
      (∀ j, j ≠ ip → s1.nlink j = s.nlink j) := by
  have hne : dp ≠ ip := by
    intro h; rw [h, hty] at hdir; cases hdir
  refine ⟨dropLink (clearEntry s dp off) ip, ?_, ?_, ?_, ?_, ?_, ?_⟩
  · unfold sys_unlink
    simp only [hp, hl]
    rw [if_neg (by simp [hdot.1, hdot.2]), if_neg (by omega),
      if_neg (by simp [hty]), if_pos hty]
  · simp [dropLink, clearEntry]
  · intro d o h
    simp only [dropLink, clearEntry]
    rw [if_neg h]
  · simp [dropLink, clearEntry]
  · simp [dropLink, clearEntry, hne]
  · intro j hj
    simp [dropLink, clearEntry, hj]

/-- Witness for C14: `unlink("/l")` on the example tree. -/
theorem unlink_symlink_only_link_witness :
    (treeLookup.nameiparent [47, 108] = some (1, [108]) ∧
      treeLookup.dirlookup 1 [108] = some (7, 32) ∧ treeDirs.type 1 = IType.T_DIR ∧
      treeDirs.type 7 = IType.T_SYMLINK ∧ 1 ≤ treeDirs.nlink 7) ∧
    ∃ s1, sys_unlink treeLookup treeDirs [47, 108] = UnlinkResult.ret 0 s1 ∧
      s1.entry 1 32 = { inum := 0, name := [] } ∧
      (∀ d o, ¬ (d = 1 ∧ o = 32) → s1.entry d o = treeDirs.entry d o) ∧
      s1.nlink 7 = treeDirs.nlink 7 - 1 ∧
      s1.nlink 1 = treeDirs.nlink 1 ∧
      (∀ j, j ≠ 7 → s1.nlink j = treeDirs.nlink j) :=
  ⟨by decide,
    unlink_symlink_only_link treeLookup treeDirs [47, 108] [108] 1 7 32 (by decide) (by decide)
      (by decide) (by decide) (by decide) (by decide)⟩

/-- C15. When the named entry is a directory that is not empty (with link count
at least 1), `unlink` returns -1 and leaves the state as it was: the entries
of the parent and of every directory, and the link counts of the parent, of the
target and of every inode. -/
theorem unlink_nonempty_dir_fails (lk : Lookup) (s : Dirs) (path name : List Nat)
    (dp ip off : Nat)
    (hp : lk.nameiparent path = some (dp, name))
    (hl : lk.dirlookup dp name = some (ip, off))
    (hty : s.type ip = IType.T_DIR) (hne : lk.isdirempty ip = false)
    (hn : 1 ≤ s.nlink ip) :
    sys_unlink lk s path = UnlinkResult.ret (-1) s := by
  unfold sys_unlink
  simp only [hp, hl]
  split
  · rfl
  · rw [if_neg (by omega), if_pos ⟨hty, hne⟩]

/-- Witness for C15: `unlink("/d")` on the example tree. -/
theorem unlink_nonempty_dir_fails_witness :
    (treeLookup.nameiparent [47, 100] = some (1, [100]) ∧
      treeLookup.dirlookup 1 [100] = some (8, 48) ∧ treeDirs.type 8 = IType.T_DIR ∧
      treeLookup.isdirempty 8 = false ∧ 1 ≤ treeDirs.nlink 8) ∧
    sys_unlink treeLookup treeDirs [47, 100] = UnlinkResult.ret (-1) treeDirs :=
  ⟨by decide,
    unlink_nonempty_dir_fails treeLookup treeDirs [47, 100] [100] 1 8 48 (by decide) (by decide)
      (by decide) (by decide) (by decide)⟩

/-- C16. The block under `// Free double-indirect blocks.` has no effect: for
every inode state `itrunc` with that block and `itrunc` without it leave the
same state (inode, disk, allocator, sequence of `bfree` calls), because
`ip->addrs[NDIRECT]` is 0 when the guard of the block is evaluated. -/
theorem itrunc_double_tier_no_effect (BSIZE : Nat) (s : FS) :
    itrunc BSIZE s = itruncNoDouble BSIZE s ∧
    (freeSingle BSIZE (freeDirect NDIRECT s)).addrs NDIRECT = 0 ∧
    (itrunc BSIZE s).freed = (itruncNoDouble BSIZE s).freed ∧
    (itrunc BSIZE s).addrs = (itruncNoDouble BSIZE s).addrs ∧
    (itrunc BSIZE s).disk = (itruncNoDouble BSIZE s).disk := by
  have h : itrunc BSIZE s = itruncNoDouble BSIZE s := by
    simp only [itrunc, itruncNoDouble, freeDouble_after_single]
  refine ⟨h, ?_, by rw [h], by rw [h], by rw [h]⟩
  rw [freeSingle_addrs]; simp

/-- One round of the resolution loop writes no index of `target` above `MAXPATH`. -/
theorem targetWrites_le (MAXPATH : Nat) (fs : Names) (ip : Nat) :
    ∀ i, i ∈ targetWrites MAXPATH fs ip → i ≤ MAXPATH := by
  intro i hi
  unfold targetWrites at hi
  dsimp only at hi
  split at hi
  · cases hi
  · split at hi
    · cases hi
    · rename_i hc
      have hlen : (decodeInt (readi fs ip 0 4)).toNat ≤ MAXPATH := by
        simp only [lenCorrupt, Bool.or_eq_true, decide_eq_true_eq, not_or, not_le, gt_iff_lt,
          not_lt] at hc
        omega
      have hb : (readi fs ip 4 ((decodeInt (readi fs ip 0 4)).toNat + 1)).length
          ≤ (decodeInt (readi fs ip 0 4)).toNat + 1 := by
        simp only [readi, List.length_take]
        omega
      split at hi
      · have := List.mem_range.mp hi
        omega
      · rcases List.mem_append.mp hi with h | h
        · have := List.mem_range.mp h
          omega
        · simp only [List.mem_singleton] at h
          omega

set_option maxRecDepth 100000 in
/-- C17 at the failing input: with `MAXPATH = 128`, a symbolic link whose length
prefix is 128 and whose content has the 129 bytes asked for.  The length passes
the check `len <= 0 || len > MAXPATH`, the read of `len + 1 = 129` bytes and the
terminator store both write `target[128]`, one past the last index 127 of the
buffer. -/
theorem target_overflow_at_maxpath :
    decodeInt (readi overlongFS 0 0 4) = 128 ∧
    lenCorrupt 128 (decodeInt (readi overlongFS 0 0 4)) = false ∧
    (readi overlongFS 0 4 (128 + 1)).length = 129 ∧
    targetWrites 128 overlongFS 0 = List.range 129 ++ [128] ∧
    128 ∈ targetWrites 128 overlongFS 0 ∧
    ¬ (∀ i, i ∈ targetWrites 128 overlongFS 0 → i < 128) := by
  refine ⟨by decide, by decide, by decide, by decide, by decide, ?_⟩
  intro h
  exact absurd (h 128 (by decide)) (by decide)

/-- Counterexample to C18 as stated: `symlink("", "/c")` succeeds and writes the length
prefix 0 and one terminator byte; the resolution step on the new link reports
the corruption error and `open("/c")` returns -1. -/
theorem empty_target_link_is_corrupt :
    (sys_symlink 128 abFS (some 7) [] [47, 99]).isSome = true ∧
    emptyLinkFS.namei [47, 99] = some 7 ∧
    emptyLinkFS.type 7 = IType.T_SYMLINK ∧
    emptyLinkFS.content 7 = [0, 0, 0, 0, 0] ∧
    decodeInt (readi emptyLinkFS 7 0 4) = 0 ∧
    lenCorrupt 128 0 = true ∧
    followStepE 128 emptyLinkFS 7 = StepRes.fail StepErr.corrupt ∧
    sys_open 128 10 emptyLinkFS none (some 3) [47, 99]
      { create := false, nofollow := false, rdonly := true } = none := by
  decide

/-! ## Index bounds of bmap -/

theorem toU32_sub (a b : Nat) (hb : b ≤ a) (ha : a < 4294967296) :
    toU32 ((a : Int) - (b : Int)) = a - b := by
  unfold toU32
  omega

theorem toI32_small (q : Nat) (h : q < 2147483648) : toI32 (q : Int) = (q : Int) := by
  unfold toI32
  have : (q : Int) % 4294967296 = q := by omega
  rw [this, if_pos (by omega)]

theorem bmapIndices_double (BSIZE bn : Nat) (hlo : NDIRECT + NINDIRECT BSIZE ≤ bn)
    (hhi : bn < MAXFILE BSIZE) (hu : bn < 4294967296) :
    bmapIndices BSIZE bn = some ([NDIRECT + 1],
      (List.range ((bn - NDIRECT - NINDIRECT BSIZE) / NINDIRECT BSIZE + 1)).map Int.ofNat
        ++ [(((bn - NDIRECT - NINDIRECT BSIZE) % NINDIRECT BSIZE : Nat) : Int)]) := by
  have h1 : toU32 ((bn : Int) - (NDIRECT : Int)) = bn - NDIRECT :=
    toU32_sub bn NDIRECT (by omega) hu
  have h2 : toU32 (((bn - NDIRECT : Nat) : Int) - (NINDIRECT BSIZE : Int))
      = bn - NDIRECT - NINDIRECT BSIZE :=
    toU32_sub (bn - NDIRECT) (NINDIRECT BSIZE) (by omega) (by omega)
  have h5 : bn - NDIRECT - NINDIRECT BSIZE < NINDIRECT BSIZE * NINDIRECT BSIZE := by
    unfold MAXFILE NDINDIRECT at hhi; omega
  unfold bmapIndices
  rw [if_neg (by omega)]
  simp only [h1]
  rw [if_neg (by omega)]
  simp only [h2]
  rw [if_pos (by unfold NDINDIRECT; exact h5)]
  generalize hN : NINDIRECT BSIZE = N at *
  generalize hb : bn - NDIRECT - N = b at *
  have hbu : b < 4294967296 := by omega
  have hNpos : 0 < N := by
    rcases Nat.eq_zero_or_pos N with h | h
    · rw [h] at h5; simp at h5
    · exact h
  have hqN : b / N < N := Nat.div_lt_of_lt_mul h5
  have hq : b / N < 2147483648 := by
    by_cases hone : N = 1
    · omega
    · have : b / N ≤ b / 2 := Nat.div_le_div_left (by omega) (by omega)
      omega
  have hI := toI32_small (b / N) hq
  rw [hI]
  have hmul : N * (b / N) + b % N = b := Nat.div_add_mod b N
  have h3 : toU32 ((b : Int) - (N : Int) * ((b / N : Nat) : Int)) = b % N := by
    have hc : ((N * (b / N) : Nat) : Int) = (N : Int) * ((b / N : Nat) : Int) := by
      push_cast; rfl
    rw [← hc]
    generalize N * (b / N) = P at hmul
    unfold toU32
    omega
  rw [h3]
  have hl : loopIndices ((b / N : Nat) : Int)
      = (List.range (b / N + 1)).map Int.ofNat := by
    unfold loopIndices
    rw [if_neg (not_lt.mpr (Int.ofNat_nonneg _)), Int.toNat_ofNat]
  rw [hl]

/-- C19. For every `bn < MAXFILE` (a `uint`, so below 2^32) `bmap` takes exactly one
of its three branches and not the fatal path; with the arithmetic on `uint bn`
and `int index` as the source has it, the slot of the address table it uses is
`bn`, `NDIRECT` or `NDIRECT + 1`, below `NDIRECT + 2`, and the indices into pointer
blocks are `bn - NDIRECT` in the single-indirect tier and `0, .., bn'/NINDIRECT` and
then `bn' mod NINDIRECT` in the double-indirect tier, all at least 0 and below
`NINDIRECT`. -/
theorem bmap_total_in_bounds (BSIZE bn : Nat) (hbn : bn < MAXFILE BSIZE)
    (hu : bn < 4294967296) :
    (∀ s, (bmap BSIZE s bn).1 ≠ none) ∧
    ∃ slots words, bmapIndices BSIZE bn = some (slots, words) ∧
      (bn < NDIRECT → slots = [bn] ∧ words = []) ∧
      (NDIRECT ≤ bn → bn < NDIRECT + NINDIRECT BSIZE →
        slots = [NDIRECT] ∧ words = [((bn - NDIRECT : Nat) : Int)]) ∧
      (NDIRECT + NINDIRECT BSIZE ≤ bn →
        slots = [NDIRECT + 1] ∧
        words = (List.range ((bn - NDIRECT - NINDIRECT BSIZE) / NINDIRECT BSIZE + 1)).map Int.ofNat
          ++ [(((bn - NDIRECT - NINDIRECT BSIZE) % NINDIRECT BSIZE : Nat) : Int)]) ∧
      (∀ i, i ∈ slots → i < NDIRECT + 2) ∧
      (∀ w, w ∈ words → 0 ≤ w ∧ w < (NINDIRECT BSIZE : Int)) := by
  constructor
  · intro s
    by_cases h1 : bn < NDIRECT
    · rw [bmap_direct _ _ _ h1]; simp
    · by_cases h2 : bn < NDIRECT + NINDIRECT BSIZE
      · rw [bmap_single _ _ _ (by omega) h2]; simp
      · rw [bmap_double _ _ _ (by omega) hbn]; simp
  · by_cases h1 : bn < NDIRECT
    · refine ⟨[bn], [], by simp [bmapIndices, h1], fun _ => ⟨rfl, rfl⟩,
        fun h => absurd h1 (by omega), fun h => absurd h1 (by omega), ?_, by simp⟩
      intro i hi
      simp only [List.mem_singleton] at hi
      omega
    · by_cases h2 : bn < NDIRECT + NINDIRECT BSIZE
      · have e1 : toU32 ((bn : Int) - (NDIRECT : Int)) = bn - NDIRECT :=
          toU32_sub bn NDIRECT (by omega) hu
        refine ⟨[NDIRECT], [((bn - NDIRECT : Nat) : Int)], ?_, fun h => absurd h h1,
          fun _ _ => ⟨rfl, rfl⟩, fun h => absurd h2 (by omega), ?_, ?_⟩
        · unfold bmapIndices
          rw [if_neg h1]
          simp only [e1]
          rw [if_pos (by omega)]
        · intro i hi
          simp only [List.mem_singleton] at hi
          omega
        · intro w hw
          simp only [List.mem_singleton] at hw
          omega
      · have hlo : NDIRECT + NINDIRECT BSIZE ≤ bn := by omega
        have hN : (bn - NDIRECT - NINDIRECT BSIZE) / NINDIRECT BSIZE < NINDIRECT BSIZE := by
          rcases index_lt BSIZE bn hbn with h | h
          · exact h
          · unfold MAXFILE NDINDIRECT at hbn; rw [h] at hbn hlo; omega
        have hpos : 0 < NINDIRECT BSIZE := Nat.pos_of_ne_zero (fun h => by rw [h] at hN; omega)
        have hmod := Nat.mod_lt (bn - NDIRECT - NINDIRECT BSIZE) hpos
        refine ⟨_, _, bmapIndices_double BSIZE bn hlo hbn hu, fun h => absurd h h1,
          fun _ h => absurd h h2, fun _ => ⟨rfl, rfl⟩, ?_, ?_⟩
        · intro i hi
          simp only [List.mem_singleton] at hi
          omega
        · generalize (bn - NDIRECT - NINDIRECT BSIZE) / NINDIRECT BSIZE = L1 at *
          generalize (bn - NDIRECT - NINDIRECT BSIZE) % NINDIRECT BSIZE = L2 at *
          intro w hw
          rcases List.mem_append.mp hw with h | h
          · simp only [List.mem_map, List.mem_range] at h
            obtain ⟨i, hi, hiw⟩ := h
            have hiw1 : (i : Int) = w := hiw
            omega
          · simp only [List.mem_singleton] at h
            omega

/-- Witness for C19: the last valid index with 1024-byte blocks. -/
theorem bmap_total_in_bounds_witness :
    (65802 < MAXFILE 1024 ∧ 65802 < 4294967296) ∧
    ((∀ s, (bmap 1024 s 65802).1 ≠ none) ∧
    ∃ slots words, bmapIndices 1024 65802 = some (slots, words) ∧
      (65802 < NDIRECT → slots = [65802] ∧ words = []) ∧
      (NDIRECT ≤ 65802 → 65802 < NDIRECT + NINDIRECT 1024 →
        slots = [NDIRECT] ∧ words = [((65802 - NDIRECT : Nat) : Int)]) ∧
      (NDIRECT + NINDIRECT 1024 ≤ 65802 →
        slots = [NDIRECT + 1] ∧
        words = (List.range ((65802 - NDIRECT - NINDIRECT 1024) / NINDIRECT 1024 + 1)).map Int.ofNat
          ++ [(((65802 - NDIRECT - NINDIRECT 1024) % NINDIRECT 1024 : Nat) : Int)]) ∧
      (∀ i, i ∈ slots → i < NDIRECT + 2) ∧
      (∀ w, w ∈ words → 0 ≤ w ∧ w < (NINDIRECT 1024 : Int))) :=
  ⟨by decide, bmap_total_in_bounds 1024 65802 (by decide) (by decide)⟩

theorem sys_symlink_content (MAXPATH : Nat) (fs fs1 : Names) (ip : Nat) (t p : List Nat)
    (hs : sys_symlink MAXPATH fs (some ip) t p = some fs1) :
    t.length < MAXPATH ∧ fs1.content ip = symlinkContent t := by
  unfold sys_symlink at hs
  split at hs
  · cases hs
  · rename_i hlen
    simp only [Option.some.injEq] at hs
    refine ⟨by omega, ?_⟩
    rw [← hs]
    have e1 : List.take 4 (encodeInt (t.length : Int)) = encodeInt (t.length : Int) :=
      List.take_of_length_le (by rw [encodeInt_length])
    have e2 : List.drop (4 + (t ++ [0]).length) (encodeInt (t.length : Int)) = [] :=
      List.drop_of_length_le (by rw [encodeInt_length]; omega)
    simp only [writei, symlinkContent, if_true, List.take_zero, List.nil_append,
      List.drop_nil, List.append_nil, e1, e2, List.append_assoc]

/-- C18, amended.  For every target `t` with `1 <= strlen(t)` that `sys_symlink`
accepts (so `strlen(t) < MAXPATH`), the length prefix of the link it creates is
read back in full, decodes to `strlen(t)` and passes the check
`len <= 0 || len > MAXPATH`: the resolution step on the link does not end in the
corruption error. -/
theorem created_link_passes_check (MAXPATH : Nat) (fs fs1 : Names) (ip : Nat)
    (t p : List Nat) (hM : MAXPATH ≤ 2147483648) (h1 : 1 ≤ t.length)
    (hs : sys_symlink MAXPATH fs (some ip) t p = some fs1) :
    (readi fs1 ip 0 4).length = 4 ∧
    decodeInt (readi fs1 ip 0 4) = (t.length : Int) ∧
    lenCorrupt MAXPATH (decodeInt (readi fs1 ip 0 4)) = false ∧
    followStepE MAXPATH fs1 ip ≠ StepRes.fail StepErr.corrupt := by
  obtain ⟨h2, hc⟩ := sys_symlink_content MAXPATH fs fs1 ip t p hs
  have hhdr : readi fs1 ip 0 4 = encodeInt (t.length : Int) := by
    simp [readi, hc, symlinkContent, List.take_append_eq_append_take, encodeInt_length]
  have hdec : decodeInt (encodeInt (t.length : Int)) = (t.length : Int) :=
    decode_encode _ (by omega)
  have hnc : lenCorrupt MAXPATH (t.length : Int) = false := by
    unfold lenCorrupt
    rw [Bool.or_eq_false_iff]
    exact ⟨decide_eq_false (by omega), decide_eq_false (by omega)⟩
  have hlen : (readi fs1 ip 0 4).length = 4 := by rw [hhdr, encodeInt_length]
  refine ⟨hlen, by rw [hhdr, hdec], by rw [hhdr, hdec, hnc], ?_⟩
  intro h
  have := ((step_corrupt_iff_aux MAXPATH fs1 ip hlen).mp h)
  rw [hhdr, hdec] at this
  omega

/-- Witness for C18 amended: `symlink("/a/b", "/c")` on the example file system. -/
theorem created_link_passes_check_witness :
    (128 ≤ 2147483648 ∧ 1 ≤ [47, 97, 47, 98].length ∧
      (sys_symlink 128 abFS (some 7) [47, 97, 47, 98] [47, 99]).isSome = true) ∧
    ∀ fs1, sys_symlink 128 abFS (some 7) [47, 97, 47, 98] [47, 99] = some fs1 →
      (readi fs1 7 0 4).length = 4 ∧
      decodeInt (readi fs1 7 0 4) = (([47, 97, 47, 98] : List Nat).length : Int) ∧
      lenCorrupt 128 (decodeInt (readi fs1 7 0 4)) = false ∧
      followStepE 128 fs1 7 ≠ StepRes.fail StepErr.corrupt :=
  ⟨by decide, fun fs1 hs =>
    created_link_passes_check 128 abFS fs1 7 [47, 97, 47, 98] [47, 99] (by decide) (by decide) hs⟩

end Fs
